import Mathlib

/-!
Verification of the Task Notifier application (`Task Notifier/TaskNotifier.py`)
against its natural-language specification.

The development shallowly embeds the scheduling core of the program:

* a model of the Python `datetime` values the scheduler observes (year, month,
  day, hour, minute — seconds and microseconds are never observed by any code
  path modelled here, every comparison in the source truncates to the minute);
* the CPython proleptic-Gregorian calendar functions (`toordinal`, `weekday`,
  `isocalendar`) that `_should_fire` and `_mark_fired` rely on;
* `strftime` for the three format strings the program uses and `strptime` for
  the single format `"%Y-%m-%d %H:%M"` (restricted to ASCII digits and ASCII
  whitespace; the program only ever feeds it ASCII);
* the notification-record dictionary, `_should_fire`, `_mark_fired`, the
  polling cycle of `check_notifications`, the delivery dispatcher
  `_deliver_notification`, and the JSON persistence layer
  (`load_notifications` / `save_notifications`).
-/

/-! ## Decimal digits and Python integer rendering -/

/-- The decimal digit character of `n % 10`. -/
def digitChar (n : Nat) : Char :=
  match n % 10 with
  | 0 => '0'
  | 1 => '1'
  | 2 => '2'
  | 3 => '3'
  | 4 => '4'
  | 5 => '5'
  | 6 => '6'
  | 7 => '7'
  | 8 => '8'
  | _ => '9'

/-- Fuelled decimal rendering loop (least-significant digit first into the
accumulator), mirroring how CPython renders a nonnegative integer in
decimal without padding. -/
def renderNatAux : Nat → Nat → List Char → List Char
  | 0, _, acc => acc
  | fuel + 1, n, acc =>
    if n / 10 = 0 then digitChar n :: acc
    else renderNatAux fuel (n / 10) (digitChar n :: acc)

/-- Python `str(n)` for a nonnegative integer `n`: decimal, no padding. -/
def renderNat (n : Nat) : List Char :=
  renderNatAux (n + 1) n []

/-- Python `str(i)` for an integer: decimal with a leading minus sign for
negative values. -/
def renderInt (i : Int) : List Char :=
  if i < 0 then '-' :: renderNat i.natAbs else renderNat i.toNat

/-- Numeric value of a list of decimal digit characters. -/
def digitsToNat (ds : List Char) : Nat :=
  ds.foldl (fun a c => 10 * a + (c.toNat - 48)) 0

/-! ## The CPython proleptic-Gregorian calendar -/

/-- CPython `datetime._is_leap`. -/
def isLeap (y : Nat) : Bool :=
  y % 4 = 0 && (y % 100 != 0 || y % 400 = 0)

/-- CPython `datetime._days_in_month` (0 outside month range 1..12; the
embedding only consults it for validated months). -/
def daysInMonth (y m : Nat) : Nat :=
  match m with
  | 1 => 31
  | 2 => if isLeap y then 29 else 28
  | 3 => 31
  | 4 => 30
  | 5 => 31
  | 6 => 30
  | 7 => 31
  | 8 => 31
  | 9 => 30
  | 10 => 31
  | 11 => 30
  | 12 => 31
  | _ => 0

/-- The table `_DAYS_BEFORE_MONTH` of CPython `datetime` (days in a
non-leap year strictly before the given month). -/
def daysBeforeMonthBase (m : Nat) : Nat :=
  match m with
  | 1 => 0
  | 2 => 31
  | 3 => 59
  | 4 => 90
  | 5 => 120
  | 6 => 151
  | 7 => 181
  | 8 => 212
  | 9 => 243
  | 10 => 273
  | 11 => 304
  | 12 => 334
  | _ => 0

/-- CPython `datetime._days_before_month`. -/
def daysBeforeMonth (y m : Nat) : Nat :=
  daysBeforeMonthBase m + (if 2 < m ∧ isLeap y then 1 else 0)

/-- CPython `datetime._days_before_year`. -/
def daysBeforeYear (y : Nat) : Nat :=
  let n := y - 1
  365 * n + n / 4 + n / 400 - n / 100

/-- CPython `datetime._ymd2ord`: proleptic-Gregorian ordinal, with
0001-01-01 as ordinal 1. -/
def toordinal (y m d : Nat) : Nat :=
  daysBeforeYear y + daysBeforeMonth y m + d

/-! ## The `datetime` values observed by the scheduler -/

/-- The slice of a Python `datetime` the scheduler observes.  Seconds and
microseconds are omitted: every code path in the scheduling core truncates
to the minute (`"%Y-%m-%d %H:%M"`, `"%H:%M"`, `"%Y-%m-%d"`, `weekday`,
`isocalendar`). -/
structure PyDateTime where
  year : Nat
  month : Nat
  day : Nat
  hour : Nat
  minute : Nat
deriving DecidableEq, Repr

/-- The constructor invariant of CPython `datetime` (restricted to the
fields modelled): `MINYEAR ≤ year ≤ MAXYEAR`, month/day/hour/minute in
range. -/
def PyDateTime.Valid (t : PyDateTime) : Prop :=
  1 ≤ t.year ∧ t.year ≤ 9999 ∧ 1 ≤ t.month ∧ t.month ≤ 12 ∧
    1 ≤ t.day ∧ t.day ≤ daysInMonth t.year t.month ∧ t.hour ≤ 23 ∧ t.minute ≤ 59

instance (t : PyDateTime) : Decidable t.Valid := by
  unfold PyDateTime.Valid
  infer_instance

/-- `datetime.weekday()`: Monday is 0.  CPython computes
`(toordinal + 6) % 7`. -/
def PyDateTime.weekday (t : PyDateTime) : Nat :=
  (toordinal t.year t.month t.day + 6) % 7

/-- CPython `datetime._isoweek1monday`: ordinal of the Monday of ISO week 1
of the given year. -/
def isoweek1monday (year : Nat) : Int :=
  let firstday : Int := toordinal year 1 1
  let firstweekday : Int := (firstday + 6) % 7
  let week1monday := firstday - firstweekday
  if firstweekday > 3 then week1monday + 7 else week1monday

/-- CPython `datetime.isocalendar()`, restricted to the (ISO year, ISO week)
pair the program uses.  Python's `divmod` floors, hence `Int.fdiv`. -/
def isocalendarYW (t : PyDateTime) : Int × Int :=
  let today : Int := toordinal t.year t.month t.day
  let week := (today - isoweek1monday t.year).fdiv 7
  if week < 0 then
    ((t.year : Int) - 1, (today - isoweek1monday (t.year - 1)).fdiv 7 + 1)
  else if 52 ≤ week then
    if isoweek1monday (t.year + 1) ≤ today then ((t.year : Int) + 1, 1)
    else ((t.year : Int), week + 1)
  else ((t.year : Int), week + 1)

/-! ## `strftime` for the three formats used by the program -/

/-- Zero-padded two-digit rendering (`%02d`), for values below 100. -/
def pad2 (n : Nat) : List Char :=
  [digitChar (n / 10), digitChar n]

/-- Zero-padded four-digit rendering (`%04d`), for values below 10000. -/
def pad4 (n : Nat) : List Char :=
  [digitChar (n / 1000), digitChar (n / 100), digitChar (n / 10), digitChar n]

/-- `now.strftime("%Y-%m-%d")`. -/
def fmtDate (t : PyDateTime) : String :=
  String.mk (pad4 t.year ++ '-' :: (pad2 t.month ++ '-' :: pad2 t.day))

/-- `now.strftime("%H:%M")`. -/
def fmtHM (t : PyDateTime) : String :=
  String.mk (pad2 t.hour ++ ':' :: pad2 t.minute)

/-- `now.strftime("%Y-%m-%d %H:%M")`. -/
def fmtDateHM (t : PyDateTime) : String :=
  String.mk (pad4 t.year ++ '-' :: (pad2 t.month ++ '-' :: (pad2 t.day ++
    ' ' :: (pad2 t.hour ++ ':' :: pad2 t.minute))))

/-- The Weekly de-dup key `f"{year}-W{weeknum}"` built from
`now.isocalendar()`. -/
def isoWeekStr (t : PyDateTime) : String :=
  String.mk (renderInt (isocalendarYW t).1 ++ '-' :: 'W' :: renderInt (isocalendarYW t).2)

/-! ## `strptime` for the single format `"%Y-%m-%d %H:%M"` -/

/-- Maximal run of leading ASCII decimal digits, and the rest. -/
def takeDigits : List Char → List Char × List Char
  | [] => ([], [])
  | c :: cs =>
    if c.isDigit then
      let p := takeDigits cs
      (c :: p.1, p.2)
    else ([], c :: cs)

/-- ASCII whitespace as matched by the `\s+` that CPython `_strptime`
substitutes for the literal space of the format string. -/
def isPyWs (c : Char) : Bool :=
  c == ' ' || c == '\t' || c == '\n' || c == '\r' || c.toNat == 11 || c.toNat == 12

/-- The syntactic phase of `strptime(s, "%Y-%m-%d %H:%M")`: CPython compiles
the format to the regex
`(\d\d\d\d)-(1[0-2]|0[1-9]|[1-9])-(3[01]|[12]\d|0[1-9]|[1-9])\s+(2[0-3]|[0-1]\d|\d):([0-5]\d|\d)`
anchored at both ends.  Because every numeric field is followed by a
non-digit delimiter, regex backtracking reduces to: take the maximal digit
run, require its length and value to fit the field. -/
def strpFields (cs : List Char) : Option (Nat × Nat × Nat × Nat × Nat) :=
  let py := takeDigits cs
  if py.1.length = 4 then
    match py.2 with
    | '-' :: r2 =>
      let pm := takeDigits r2
      if (pm.1.length = 1 ∨ pm.1.length = 2) ∧ 1 ≤ digitsToNat pm.1 ∧ digitsToNat pm.1 ≤ 12 then
        match pm.2 with
        | '-' :: r4 =>
          let pd := takeDigits r4
          if (pd.1.length = 1 ∨ pd.1.length = 2) ∧ 1 ≤ digitsToNat pd.1 ∧ digitsToNat pd.1 ≤ 31 then
            match pd.2 with
            | c :: r6 =>
              if isPyWs c then
                let ph := takeDigits (r6.dropWhile isPyWs)
                if (ph.1.length = 1 ∨ ph.1.length = 2) ∧ digitsToNat ph.1 ≤ 23 then
                  match ph.2 with
                  | ':' :: r9 =>
                    let pmin := takeDigits r9
                    if (pmin.1.length = 1 ∨ pmin.1.length = 2) ∧ digitsToNat pmin.1 ≤ 59 ∧
                        pmin.2 = [] then
                      some (digitsToNat py.1, digitsToNat pm.1, digitsToNat pd.1,
                        digitsToNat ph.1, digitsToNat pmin.1)
                    else none
                  | _ => none
                else none
              else none
            | _ => none
          else none
        | _ => none
      else none
    | _ => none
  else none

/-- The `datetime(...)` constructor check performed after the syntactic
match: year in `MINYEAR..MAXYEAR`, month in range, day within the month,
hour and minute in range. -/
def mkValidDT (y mo d h mi : Nat) : Option PyDateTime :=
  if 1 ≤ y ∧ y ≤ 9999 ∧ 1 ≤ mo ∧ mo ≤ 12 ∧ 1 ≤ d ∧ d ≤ daysInMonth y mo ∧
      h ≤ 23 ∧ mi ≤ 59 then
    some ⟨y, mo, d, h, mi⟩
  else none

/-- `datetime.strptime(s, "%Y-%m-%d %H:%M")`, returning `none` where Python
raises `ValueError`. -/
def strptimeYmdHM (s : String) : Option PyDateTime :=
  (strpFields s.data).bind fun f => mkValidDT f.1 f.2.1 f.2.2.1 f.2.2.2.1 f.2.2.2.2

/-! ## Notification records -/

/-- A JSON-derived Python value, as stored in the `created_weekday` slot of a
record dictionary.  The application itself always writes an `int` there, but
the persisted file is ordinary JSON and `_should_fire` applies `int(...)` to
whatever it finds, so the string case is representable. -/
inductive PyVal where
  | int (n : Int)
  | str (s : String)
deriving DecidableEq, Repr

/-- Python `int(v)` on such a value: the identity on integers; on strings,
strip whitespace, allow one optional sign, then require a nonempty run of
ASCII decimal digits (`none` models the `ValueError`/`TypeError` raise).
Python's `int()` additionally accepts underscore-grouped and non-ASCII
decimal digit strings; the model conservatively returns `none` for those, so
only its `isSome` region (where it agrees with `int()`) is used positively
below, and the raise results are stated at plainly non-numeric inputs such
as `"x"`, which Python rejects as well. -/
def pyIntOf : PyVal → Option Int
  | .int n => some n
  | .str s =>
    let cs := ((s.data.dropWhile isPyWs).reverse.dropWhile isPyWs).reverse
    match cs with
    | '-' :: ds =>
      if ds ≠ [] ∧ ds.all Char.isDigit then some (-(digitsToNat ds : Int)) else none
    | '+' :: ds =>
      if ds ≠ [] ∧ ds.all Char.isDigit then some ((digitsToNat ds : Int)) else none
    | ds =>
      if ds ≠ [] ∧ ds.all Char.isDigit then some ((digitsToNat ds : Int)) else none

/-- A notification record dictionary.  Each field is `Option`al because the
program reads every key with `dict.get` and tolerates its absence (an absent
key and a JSON `null` both read back as Python `None`, which `Option.none`
models).  Field `rep` embeds the `"repeat"` key (a Lean keyword).  Fields
carry the types the application itself reads and writes for them;
`created_weekday` is kept as a raw JSON value because `_should_fire` applies
`int(...)` to it, the one place where an ill-typed value changes behaviour. -/
structure Notif where
  title : Option String := none
  message : Option String := none
  date : Option String := none
  time : Option String := none
  rep : Option String := none
  priority : Option String := none
  image : Option String := none
  delivered : Option Bool := none
  last_fired_date : Option String := none
  last_fired_week : Option String := none
  created_weekday : Option PyVal := none
deriving DecidableEq, Repr

/-- `notif.get("repeat", "Once")`. -/
def pyRepeat (n : Notif) : String := n.rep.getD ("Once")

/-- `notif.get("time", "00:00")`. -/
def pyTime (n : Notif) : String := n.time.getD ("00:00")

/-- Python truthiness of the value read by `notif.get("delivered")`. -/
def delivTruthy : Option Bool → Bool
  | some true => true
  | _ => false

/-- Python truthiness of an optional string (`None` and `""` are falsy). -/
def strTruthy : Option String → Bool
  | none => false
  | some s => s != ""

/-- `NotifierApp._time_matches_now`: compare `now.strftime("%H:%M")` with the
stored time string.  (The `try`/`except` around the comparison in the source
is dead: string comparison cannot raise.) -/
def timeMatchesNow (now : PyDateTime) (timeStr : String) : Bool :=
  fmtHM now == timeStr

/-- `NotifierApp._should_fire`.  `Except.error` models an uncaught exception
propagating out of the method (reachable: `int()` applied to a non-numeric
`created_weekday`). -/
def shouldFire (now : PyDateTime) (n : Notif) : Except Unit Bool :=
  let rep := pyRepeat n
  let timeStr := pyTime n
  if rep = "Once" then
    if delivTruthy n.delivered then .ok false
    else if !strTruthy n.date then .ok false
    else
      match strptimeYmdHM ((n.date.getD ("")) ++ " " ++ timeStr) with
      | none => .ok false
      | some due => .ok (decide (fmtDateHM now = fmtDateHM due))
  else if rep = "Daily" then
    if !timeMatchesNow now timeStr then .ok false
    else .ok (decide (n.last_fired_date ≠ some (fmtDate now)))
  else if rep = "Weekly" then
    match pyIntOf (n.created_weekday.getD (.int (now.weekday : Int))) with
    | none => .error ()
    | some w =>
      if (now.weekday : Int) ≠ w then .ok false
      else if !timeMatchesNow now timeStr then .ok false
      else .ok (decide (n.last_fired_week ≠ some (isoWeekStr now)))
  else .ok false

/-- `NotifierApp._mark_fired` (pure in-place dictionary update). -/
def markFired (now : PyDateTime) (n : Notif) : Notif :=
  let rep := pyRepeat n
  if rep = "Once" then { n with delivered := some true }
  else if rep = "Daily" then { n with last_fired_date := some (fmtDate now) }
  else if rep = "Weekly" then { n with last_fired_week := some (isoWeekStr now) }
  else n

/-! ## The polling cycle of `check_notifications`

One iteration of the `while True` loop.  The body of the `for` loop is *not*
individually guarded: the single `try` wraps the whole cycle, so an exception
raised while processing one record abandons the remaining records of the
snapshot (the poller itself survives, sleeps and retries).  Only the image
materialisation and the temp-file `os.unlink` have their own inner
`try`/`except`.  Image materialisation is modelled by an oracle
`mat : Nat → Option String` giving the temp path written for the record at
that index, with `none` covering the inner `except` branch; `os.unlink` is
wrapped in `try: ... except: pass` and has no observable effect on the cycle,
so it is not modelled.  Delivery (`send_notification`) catches every failure
internally and cannot raise into the loop. -/

/-- Observable outcome of one poll cycle: the record list after in-place
marking, the indices evaluated by `_should_fire`, the `(index, image path)`
pairs handed to `send_notification`, whether any record fired, whether
`save_notifications` ran, and whether the cycle was aborted by an uncaught
per-record exception (swallowed by the outer `except`). -/
structure CycleResult where
  records : List Notif
  evaluated : List Nat
  delivered : List (Nat × Option String)
  fired : Bool
  saved : Bool
  aborted : Bool
deriving DecidableEq, Repr

/-- The `for notif in list(self.notifications)` loop, processing records from
index `i`.  On an uncaught exception the current and remaining records are
left untouched and the loop stops (`true` in the last component). -/
def pollGo (now : PyDateTime) (mat : Nat → Option String) :
    Nat → List Notif → List Notif × List Nat × List (Nat × Option String) × Bool × Bool
  | _, [] => ([], [], [], false, false)
  | i, n :: rest =>
    match shouldFire now n with
    | .error _ => (n :: rest, [i], [], false, true)
    | .ok false =>
      let r := pollGo now mat (i + 1) rest
      (n :: r.1, i :: r.2.1, r.2.2.1, r.2.2.2.1, r.2.2.2.2)
    | .ok true =>
      let img := if strTruthy n.image then mat i else none
      let r := pollGo now mat (i + 1) rest
      (markFired now n :: r.1, i :: r.2.1, (i, img) :: r.2.2.1, true, r.2.2.2.2)

/-- One cycle of `NotifierApp.check_notifications`: run the loop over the
snapshot, then `save_notifications` exactly when some record fired and the
loop was not aborted (an abort jumps over the save to the outer `except`). -/
def pollCycle (now : PyDateTime) (mat : Nat → Option String) (ns : List Notif) : CycleResult :=
  let r := pollGo now mat 0 ns
  ⟨r.1, r.2.1, r.2.2.1, r.2.2.2.1, r.2.2.2.1 && !r.2.2.2.2, r.2.2.2.2⟩

/-! ## The delivery dispatcher `_deliver_notification` -/

/-- The five delivery mechanisms, in the order the dispatcher tries them. -/
inductive Mech where
  | sound
  | toast1
  | toast2
  | plyer
  | dialog
deriving DecidableEq, Repr

/-- Environment of one delivery call: which optional backends are available
(`self.toaster is not None`; `os.name == 'nt' and WINDOWS_NOTIFICATIONS_AVAILABLE
and Notification is not None`; `PLYER_AVAILABLE and plyer_notification is not
None`) and whether each invoked mechanism succeeds (`false` models the call
raising, which the dispatcher catches). -/
structure DeliverEnv where
  toasterAvail : Bool
  winotifyAvail : Bool
  plyerAvail : Bool
  soundOk : Bool
  toastOk : Bool
  winotifyOk : Bool
  plyerOk : Bool
  dialogOk : Bool
deriving DecidableEq, Repr

/-- Outcome flag of each mechanism in a given environment. -/
def mechOk (e : DeliverEnv) : Mech → Bool
  | .sound => e.soundOk
  | .toast1 => e.toastOk
  | .toast2 => e.winotifyOk
  | .plyer => e.plyerOk
  | .dialog => e.dialogOk

/-- Last-resort stage: `messagebox.showinfo` wrapped in `try`/`except pass`. -/
def dialogStage (_e : DeliverEnv) : List Mech := [.dialog]

/-- Third fallback: the `plyer` cross-platform notification library. -/
def plyerStage (e : DeliverEnv) : List Mech :=
  if e.plyerAvail then
    if e.plyerOk then [.plyer] else .plyer :: dialogStage e
  else dialogStage e

/-- Second fallback: the `winotify` toast. -/
def winotifyStage (e : DeliverEnv) : List Mech :=
  if e.winotifyAvail then
    if e.winotifyOk then [.toast2] else .toast2 :: plyerStage e
  else plyerStage e

/-- First toast mechanism: `win10toast`'s `show_toast`. -/
def toasterStage (e : DeliverEnv) : List Mech :=
  if e.toasterAvail then
    if e.toastOk then [.toast1] else .toast1 :: winotifyStage e
  else winotifyStage e

/-- `NotifierApp._deliver_notification` as the sequence of mechanisms it
invokes: the sound plays first unconditionally (best-effort, swallowing its
own failures), then each fallback is tried until one returns without
raising; every failure is caught, so the function always returns normally
(it is total here by construction). -/
def deliverTrace (e : DeliverEnv) : List Mech :=
  .sound :: toasterStage e

/-- The canonical dispatch order of the five mechanisms. -/
def dispatchOrder : List Mech := [.sound, .toast1, .toast2, .plyer, .dialog]

/-! ## JSON values, rendering and parsing

`save_notifications` is `json.dump(self.notifications, f, ensure_ascii=False,
indent=2)` and `load_notifications` is `json.load(f)`: the program performs
no schema decoding, the loaded JSON value *is* the record list.  The
embedding implements the `json` module's renderer and parser for the value
forms the program can persist.  Deliberate restrictions, none of which a
value produced by the renderer can reach: floats, `NaN`/`Infinity` literals
and lone-surrogate `\uXXXX` escapes are rejected by the parser (Python
accepts them), and the renderer emits no inter-token whitespace (Python with
`indent=2` emits newlines and spaces, which its parser — and this one —
skip, so the parsed value is unaffected). -/

mutual
/-- A JSON value. -/
inductive Json where
  | null
  | bool (b : Bool)
  | int (n : Int)
  | str (s : String)
  | arr (a : JArr)
  | obj (o : JObj)
/-- A JSON array (list of values). -/
inductive JArr where
  | nil
  | cons (v : Json) (tl : JArr)
/-- A JSON object (ordered fields; Python dicts preserve insertion order). -/
inductive JObj where
  | nil
  | cons (k : String) (v : Json) (tl : JObj)
end

/-- The `\x7b` character. -/
def lbrace : Char := Char.ofNat 123

/-- The `\x7d` character. -/
def rbrace : Char := Char.ofNat 125

/-- JSON inter-token whitespace (`json.decoder.WHITESPACE`). -/
def isJsonWs (c : Char) : Bool :=
  c == ' ' || c == '\t' || c == '\n' || c == '\r'

/-- Lowercase hex digit of `n % 16`, as produced by `'\u%04x'`. -/
def hexDigitChar (n : Nat) : Char :=
  match n % 16 with
  | 0 => '0'
  | 1 => '1'
  | 2 => '2'
  | 3 => '3'
  | 4 => '4'
  | 5 => '5'
  | 6 => '6'
  | 7 => '7'
  | 8 => '8'
  | 9 => '9'
  | 10 => 'a'
  | 11 => 'b'
  | 12 => 'c'
  | 13 => 'd'
  | 14 => 'e'
  | _ => 'f'

/-- Value of a hex digit character (either case), `none` otherwise. -/
def hexVal (c : Char) : Option Nat :=
  if '0' ≤ c ∧ c ≤ '9' then some (c.toNat - 48)
  else if 'a' ≤ c ∧ c ≤ 'f' then some (c.toNat - 87)
  else if 'A' ≤ c ∧ c ≤ 'F' then some (c.toNat - 55)
  else none

/-- `json.dumps` escaping of one character with `ensure_ascii=False`:
quote, backslash and the five short control escapes use two-character
forms, every other control character becomes `\u00xx`, everything else is
emitted raw. -/
def escapeChar (c : Char) : List Char :=
  if c = '"' then ['\\', '"']
  else if c = '\\' then ['\\', '\\']
  else if c = '\n' then ['\\', 'n']
  else if c = '\r' then ['\\', 'r']
  else if c = '\t' then ['\\', 't']
  else if c.toNat = 8 then ['\\', 'b']
  else if c.toNat = 12 then ['\\', 'f']
  else if c.toNat < 32 then
    ['\\', 'u', '0', '0', hexDigitChar (c.toNat / 16), hexDigitChar c.toNat]
  else [c]

/-- Escape every character of a string body. -/
def escapeList : List Char → List Char
  | [] => []
  | c :: cs => escapeChar c ++ escapeList cs

/-- Short unescapes accepted after a backslash (`json.decoder.BACKSLASH`). -/
def unescapeChar (c : Char) : Option Char :=
  if c = '"' then some '"'
  else if c = '\\' then some '\\'
  else if c = '/' then some '/'
  else if c = 'b' then some (Char.ofNat 8)
  else if c = 'f' then some (Char.ofNat 12)
  else if c = 'n' then some '\n'
  else if c = 'r' then some '\r'
  else if c = 't' then some '\t'
  else none

/-- `json` string-body scanner (`py_scanstring`, strict mode), after the
opening quote (fuelled: each step consumes at least one input character, so
any fuel above the input length gives the scanner's real semantics): returns the decoded characters and the input after the
closing quote.  Raw control characters are rejected (strict mode); a
surrogate pair of `\uXXXX` escapes is combined; a lone surrogate escape is
rejected (Python would produce a lone-surrogate `str`, which `Char` cannot
represent — unreachable from rendered output). -/
def parseStrBody : Nat → List Char → Option (List Char × List Char)
  | 0, _ => none
  | _ + 1, [] => none
  | f + 1, c :: cs =>
    if c = '"' then some ([], cs)
    else if c = '\\' then
      match cs with
      | 'u' :: h1 :: h2 :: h3 :: h4 :: r =>
        match hexVal h1, hexVal h2, hexVal h3, hexVal h4 with
        | some a, some b, some c3, some d =>
          let code := 4096 * a + 256 * b + 16 * c3 + d
          if 55296 ≤ code ∧ code ≤ 56319 then
            match r with
            | '\\' :: 'u' :: k1 :: k2 :: k3 :: k4 :: r2 =>
              match hexVal k1, hexVal k2, hexVal k3, hexVal k4 with
              | some a2, some b2, some c2, some d2 =>
                let code2 := 4096 * a2 + 256 * b2 + 16 * c2 + d2
                if 56320 ≤ code2 ∧ code2 ≤ 57343 then
                  (parseStrBody f r2).map fun p =>
                    (Char.ofNat (65536 + (code - 55296) * 1024 + (code2 - 56320)) :: p.1, p.2)
                else none
              | _, _, _, _ => none
            | _ => none
          else if 56320 ≤ code ∧ code ≤ 57343 then none
          else (parseStrBody f r).map fun p => (Char.ofNat code :: p.1, p.2)
        | _, _, _, _ => none
      | e :: r =>
        match unescapeChar e with
        | some u => (parseStrBody f r).map fun p => (u :: p.1, p.2)
        | none => none
      | [] => none
    else if c.toNat < 32 then none
    else (parseStrBody f cs).map fun p => (c :: p.1, p.2)

/-- The integer part of the `json` `NUMBER_RE` regex `(-?(?:0|[1-9]\d*))`:
a leading `0` matches alone (so `01` leaves `1` unconsumed and fails in
context, as in Python). -/
def parseIntDigits (cs : List Char) : Option (Nat × List Char) :=
  let p := takeDigits cs
  match p.1 with
  | [] => none
  | d :: ds => if d = '0' then some (0, ds ++ p.2) else some (digitsToNat (d :: ds), p.2)

/-- Parser modes: a single value, the elements of a (nonempty) array after
`[`, the fields of a (nonempty) object after `\x7b`. -/
inductive PMode where
  | val
  | arrm
  | objm

/-- Parser results per mode. -/
inductive PRes where
  | v (j : Json)
  | a (l : JArr)
  | o (l : JObj)

/-- The `json.loads` scanner, fuelled (the fuel only bounds nesting; one
unit is spent per nested scan, so any fuel above the input length is
enough).  Mirrors `py_make_scanner`: skip whitespace, dispatch on the first
character; arrays and objects reject trailing commas; after an array/object
opener an immediate closer yields the empty collection. -/
def parseCore : Nat → PMode → List Char → Option (PRes × List Char)
  | 0, _, _ => none
  | f + 1, .val, cs =>
    match cs.dropWhile isJsonWs with
    | 't' :: 'r' :: 'u' :: 'e' :: r => some (.v (.bool true), r)
    | 'f' :: 'a' :: 'l' :: 's' :: 'e' :: r => some (.v (.bool false), r)
    | 'n' :: 'u' :: 'l' :: 'l' :: r => some (.v .null, r)
    | '"' :: r => (parseStrBody (r.length + 1) r).map fun p => (.v (.str (String.mk p.1)), p.2)
    | '[' :: r =>
      match r.dropWhile isJsonWs with
      | ']' :: r2 => some (.v (.arr .nil), r2)
      | _ =>
        match parseCore f .arrm r with
        | some (.a l, r2) => some (.v (.arr l), r2)
        | _ => none
    | '-' :: r => (parseIntDigits r).map fun p => (.v (.int (-(p.1 : Int))), p.2)
    | c :: r =>
      if c = lbrace then
        match r.dropWhile isJsonWs with
        | c2 :: r2 =>
          if c2 = rbrace then some (.v (.obj .nil), r2)
          else
            match parseCore f .objm r with
            | some (.o o, r3) => some (.v (.obj o), r3)
            | _ => none
        | [] => none
      else if c.isDigit then
        (parseIntDigits (c :: r)).map fun p => (.v (.int (p.1 : Int)), p.2)
      else none
    | [] => none
  | f + 1, .arrm, cs =>
    match parseCore f .val cs with
    | some (.v v, r) =>
      match r.dropWhile isJsonWs with
      | ',' :: r2 =>
        match parseCore f .arrm r2 with
        | some (.a l, r3) => some (.a (.cons v l), r3)
        | _ => none
      | ']' :: r2 => some (.a (.cons v .nil), r2)
      | _ => none
    | _ => none
  | f + 1, .objm, cs =>
    match cs.dropWhile isJsonWs with
    | '"' :: r =>
      match parseStrBody (r.length + 1) r with
      | some (k, r2) =>
        match r2.dropWhile isJsonWs with
        | ':' :: r3 =>
          match parseCore f .val r3 with
          | some (.v v, r4) =>
            match r4.dropWhile isJsonWs with
            | ',' :: r5 =>
              match parseCore f .objm r5 with
              | some (.o o, r6) => some (.o (.cons (String.mk k) v o), r6)
              | _ => none
            | c5 :: r5 =>
              if c5 = rbrace then some (.o (.cons (String.mk k) v .nil), r5)
              else none
            | [] => none
          | _ => none
        | _ => none
      | none => none
    | _ => none

/-- `json.loads`: scan one value, then require only whitespace to remain. -/
def parseJson (s : String) : Option Json :=
  match parseCore (s.data.length + 1) .val s.data with
  | some (.v v, rest) => if rest.dropWhile isJsonWs = [] then some v else none
  | _ => none

mutual
/-- `json.dumps` of a value (modulo the documented whitespace omission). -/
def renderV : Json → List Char
  | .null => ("null").data
  | .bool true => ("true").data
  | .bool false => ("false").data
  | .int n => renderInt n
  | .str s => '"' :: (escapeList s.data ++ ['"'])
  | .arr a => '[' :: (renderA a ++ [']'])
  | .obj o => lbrace :: (renderO o ++ [rbrace])
/-- Comma-separated array elements. -/
def renderA : JArr → List Char
  | .nil => []
  | .cons v .nil => renderV v
  | .cons v tl => renderV v ++ ',' :: renderA tl
/-- Comma-separated object fields, each `"key":value`. -/
def renderO : JObj → List Char
  | .nil => []
  | .cons k v .nil => '"' :: (escapeList k.data ++ '"' :: ':' :: renderV v)
  | .cons k v tl => '"' :: (escapeList k.data ++ '"' :: ':' :: (renderV v ++ ',' :: renderO tl))
end

/-- Rendered JSON text. -/
def renderJson (v : Json) : String := String.mk (renderV v)

/-! ## Base64 (`base64.b64encode` / `base64.b64decode`)

Images are read as raw bytes at record creation, embedded as standard
base64 text, and decoded back when a record fires.  Bytes are modelled as
naturals below 256. -/

/-- The standard base64 alphabet. -/
def b64Alphabet : List Char :=
  ("ABCDEFGHIJKLMNOPQRSTUVWXYZabcdefghijklmnopqrstuvwxyz0123456789+/").data

/-- Character of a 6-bit group. -/
def b64char (n : Nat) : Char := b64Alphabet.getD n ('A')

/-- Index of an alphabet character. -/
def b64val (c : Char) : Option Nat := b64Alphabet.findIdx? (fun a => a == c)

/-- `base64.b64encode`: 3-byte groups become 4 characters; a final group of
1 or 2 bytes is padded with `=`. -/
def b64encode : List Nat → List Char
  | [] => []
  | [a] => [b64char (a / 4), b64char (a % 4 * 16), '=', '=']
  | [a, b] => [b64char (a / 4), b64char (a % 4 * 16 + b / 16), b64char (b % 16 * 4), '=']
  | a :: b :: c :: rest =>
    b64char (a / 4) :: b64char (a % 4 * 16 + b / 16) :: b64char (b % 16 * 4 + c / 64) ::
      b64char (c % 64) :: b64encode rest

/-- `base64.b64decode` on well-formed input: groups of 4 alphabet
characters, with `=`-padding allowed only at the very end; `none` models
`binascii.Error`.  (Python's default `validate=False` first discards
non-alphabet characters; encoder output contains none, so the difference is
unreachable from a round trip.) -/
def b64decode : List Char → Option (List Nat)
  | [] => some []
  | c1 :: c2 :: c3 :: c4 :: rest =>
    match b64val c1, b64val c2 with
    | some v1, some v2 =>
      if c3 = '=' then
        if c4 = '=' ∧ rest = [] then some [v1 * 4 + v2 / 16] else none
      else
        match b64val c3 with
        | some v3 =>
          if c4 = '=' then
            if rest = [] then some [v1 * 4 + v2 / 16, v2 % 16 * 16 + v3 / 4] else none
          else
            match b64val c4 with
            | some v4 =>
              (b64decode rest).map fun bs =>
                (v1 * 4 + v2 / 16) :: (v2 % 16 * 16 + v3 / 4) :: (v3 % 4 * 64 + v4) :: bs
            | none => none
        | none => none
    | _, _ => none
  | _ => none

/-! ## The persistence layer -/

/-- State of `notifications.json` on disk as `load_notifications` can
encounter it: absent, present but unreadable (the `open`/read raises), or
present with contents. -/
inductive FileState where
  | missing
  | unreadable
  | contents (s : String)

/-- What `load_notifications` produces: the value assigned to
`self.notifications`, and whether the warning dialog was shown. -/
structure LoadResult where
  result : Json
  warned : Bool

/-- `NotifierApp.load_notifications`: return `[]` when the file does not
exist; otherwise `json.load` it, and on any exception show a warning and
return `[]`.  The loaded value is not validated in any way. -/
def load_notifications : FileState → LoadResult
  | .missing => ⟨.arr .nil, false⟩
  | .unreadable => ⟨.arr .nil, true⟩
  | .contents s =>
    match parseJson s with
    | some v => ⟨v, false⟩
    | none => ⟨.arr .nil, true⟩

/-- `NotifierApp.save_notifications`: the bytes `json.dump` writes for the
in-memory record list (a write failure shows an error box and changes no
in-memory state; the round-trip claim is conditional on a successful
write). -/
def save_notifications (v : Json) : String := renderJson v

/-! ## Statement helpers

Auxiliary mathematical definitions used only to state and prove theorems
about the embedded program (expected index lists, expected delivery lists,
a non-fuelled specification of decimal rendering, structural sizes of JSON
values). -/

/-- `true` iff an evaluation returned `ok true`. -/
def exceptIsTrue : Except Unit Bool → Bool
  | .ok true => true
  | _ => false

/-- `[i, i+1, ..., i+len-1]`. -/
def idxFrom : Nat → Nat → List Nat
  | _, 0 => []
  | i, len + 1 => i :: idxFrom (i + 1) len

/-- Expected delivery events of an unaborted cycle, starting at index `i`:
one `(index, image path)` pair per due record, in order. -/
def dueFrom (now : PyDateTime) (mat : Nat → Option String) : Nat → List Notif → List (Nat × Option String)
  | _, [] => []
  | i, n :: rest =>
    if exceptIsTrue (shouldFire now n) then
      (i, if strTruthy n.image then mat i else none) :: dueFrom now mat (i + 1) rest
    else dueFrom now mat (i + 1) rest

/-- Non-fuelled decimal rendering, for reasoning; `renderNat` agrees with
it. -/
def renderNat0 (n : Nat) : List Char :=
  if n < 10 then [digitChar n] else renderNat0 (n / 10) ++ [digitChar n]
termination_by n
decreasing_by exact Nat.div_lt_self (by omega) (by omega)

/-- The ten ASCII digit characters. -/
def digitChars : List Char := ['0', '1', '2', '3', '4', '5', '6', '7', '8', '9']

/-- A list that does not start with an ASCII digit (delimits a rendered
number). -/
def headNotDigit : List Char → Prop
  | [] => True
  | c :: _ => c.isDigit = false

mutual
/-- Structural size of a JSON value, measuring the parser fuel needed. -/
def sizeJ : Json → Nat
  | .null => 1
  | .bool _ => 1
  | .int _ => 1
  | .str _ => 1
  | .arr a => 1 + sizeA a
  | .obj o => 1 + sizeO o
/-- Fuel for the element list of a nonempty array. -/
def sizeA : JArr → Nat
  | .nil => 1
  | .cons v .nil => 1 + sizeJ v
  | .cons v tl => 1 + sizeJ v + sizeA tl
/-- Fuel for the field list of a nonempty object. -/
def sizeO : JObj → Nat
  | .nil => 1
  | .cons _ v .nil => 1 + sizeJ v
  | .cons _ v tl => 1 + sizeJ v + sizeO tl
end

/-- The characters a rendered JSON value can start with. -/
def jsonHeadChars : List Char :=
  ['n', 't', 'f', '"', '[', '-', Char.ofNat 123] ++ digitChars

/-! ## Lemmas: digits and `strftime` injectivity -/

theorem digitChar_mod (n : Nat) : digitChar n = digitChar (n % 10) := by
  have h : n % 10 % 10 = n % 10 := by omega
  unfold digitChar
  rw [h]

theorem digitChar_inj_lt : ∀ a, a < 10 → ∀ b, b < 10 → digitChar a = digitChar b → a = b := by
  decide

theorem digitChar_inj_mod {a b : Nat} (h : digitChar a = digitChar b) : a % 10 = b % 10 := by
  refine digitChar_inj_lt (a % 10) (by omega) (b % 10) (by omega) ?_
  rw [← digitChar_mod, ← digitChar_mod]
  exact h

theorem digitChar_lt_isDigit : ∀ k, k < 10 → (digitChar k).isDigit = true := by
  decide

theorem digitChar_isDigit (n : Nat) : (digitChar n).isDigit = true := by
  rw [digitChar_mod]
  exact digitChar_lt_isDigit (n % 10) (by omega)

theorem daysInMonth_le (y m : Nat) : daysInMonth y m ≤ 31 := by
  unfold daysInMonth
  split <;> first
  | omega
  | (split <;> omega)

theorem fmtDate_eq_iff {a b : PyDateTime} (ha : a.Valid) (hb : b.Valid) :
    fmtDate a = fmtDate b ↔ (a.year = b.year ∧ a.month = b.month ∧ a.day = b.day) := by
  obtain ⟨ha1, ha2, ha3, ha4, ha5, ha6, ha7, ha8⟩ := ha
  obtain ⟨hb1, hb2, hb3, hb4, hb5, hb6, hb7, hb8⟩ := hb
  constructor
  · intro h
    have h' : pad4 a.year ++ '-' :: (pad2 a.month ++ '-' :: pad2 a.day) =
        pad4 b.year ++ '-' :: (pad2 b.month ++ '-' :: pad2 b.day) := congrArg String.data h
    simp only [pad4, pad2, List.cons_append, List.nil_append, List.cons.injEq, and_true,
      true_and] at h'
    obtain ⟨e1, e2, e3, e4, e5, e6, e7, e8⟩ := h'
    have d1 := digitChar_inj_mod e1
    have d2 := digitChar_inj_mod e2
    have d3 := digitChar_inj_mod e3
    have d4 := digitChar_inj_mod e4
    have d5 := digitChar_inj_mod e5
    have d6 := digitChar_inj_mod e6
    have d7 := digitChar_inj_mod e7
    have d8 := digitChar_inj_mod e8
    have hda : a.day ≤ 31 := le_trans ha6 (daysInMonth_le a.year a.month)
    have hdb : b.day ≤ 31 := le_trans hb6 (daysInMonth_le b.year b.month)
    refine ⟨by omega, by omega, by omega⟩
  · rintro ⟨h1, h2, h3⟩
    simp [fmtDate, h1, h2, h3]

theorem fmtHM_eq_iff {a b : PyDateTime} (ha : a.Valid) (hb : b.Valid) :
    fmtHM a = fmtHM b ↔ (a.hour = b.hour ∧ a.minute = b.minute) := by
  obtain ⟨ha1, ha2, ha3, ha4, ha5, ha6, ha7, ha8⟩ := ha
  obtain ⟨hb1, hb2, hb3, hb4, hb5, hb6, hb7, hb8⟩ := hb
  constructor
  · intro h
    have h' : pad2 a.hour ++ ':' :: pad2 a.minute = pad2 b.hour ++ ':' :: pad2 b.minute :=
      congrArg String.data h
    simp only [pad2, List.cons_append, List.nil_append, List.cons.injEq, and_true,
      true_and] at h'
    obtain ⟨e1, e2, e3, e4⟩ := h'
    have d1 := digitChar_inj_mod e1
    have d2 := digitChar_inj_mod e2
    have d3 := digitChar_inj_mod e3
    have d4 := digitChar_inj_mod e4
    exact ⟨by omega, by omega⟩
  · rintro ⟨h1, h2⟩
    simp [fmtHM, h1, h2]

theorem fmtDateHM_eq_iff {a b : PyDateTime} (ha : a.Valid) (hb : b.Valid) :
    fmtDateHM a = fmtDateHM b ↔
      (a.year = b.year ∧ a.month = b.month ∧ a.day = b.day ∧ a.hour = b.hour ∧
        a.minute = b.minute) := by
  obtain ⟨ha1, ha2, ha3, ha4, ha5, ha6, ha7, ha8⟩ := ha
  obtain ⟨hb1, hb2, hb3, hb4, hb5, hb6, hb7, hb8⟩ := hb
  constructor
  · intro h
    have h' : pad4 a.year ++ '-' :: (pad2 a.month ++ '-' :: (pad2 a.day ++
          ' ' :: (pad2 a.hour ++ ':' :: pad2 a.minute))) =
        pad4 b.year ++ '-' :: (pad2 b.month ++ '-' :: (pad2 b.day ++
          ' ' :: (pad2 b.hour ++ ':' :: pad2 b.minute))) := congrArg String.data h
    simp only [pad4, pad2, List.cons_append, List.nil_append, List.cons.injEq, and_true,
      true_and] at h'
    obtain ⟨e1, e2, e3, e4, e5, e6, e7, e8, e9, e10, e11, e12⟩ := h'
    have d1 := digitChar_inj_mod e1
    have d2 := digitChar_inj_mod e2
    have d3 := digitChar_inj_mod e3
    have d4 := digitChar_inj_mod e4
    have d5 := digitChar_inj_mod e5
    have d6 := digitChar_inj_mod e6
    have d7 := digitChar_inj_mod e7
    have d8 := digitChar_inj_mod e8
    have d9 := digitChar_inj_mod e9
    have d10 := digitChar_inj_mod e10
    have d11 := digitChar_inj_mod e11
    have d12 := digitChar_inj_mod e12
    have hda : a.day ≤ 31 := le_trans ha6 (daysInMonth_le a.year a.month)
    have hdb : b.day ≤ 31 := le_trans hb6 (daysInMonth_le b.year b.month)
    refine ⟨by omega, by omega, by omega, by omega, by omega⟩
  · rintro ⟨h1, h2, h3, h4, h5⟩
    simp [fmtDateHM, h1, h2, h3, h4, h5]

theorem mkValidDT_valid {y mo d h mi : Nat} {t : PyDateTime}
    (hm : mkValidDT y mo d h mi = some t) : t.Valid := by
  unfold mkValidDT at hm
  split at hm
  · cases hm
    exact ‹_›
  · cases hm

theorem strptime_valid {s : String} {t : PyDateTime} (h : strptimeYmdHM s = some t) :
    t.Valid := by
  unfold strptimeYmdHM at h
  obtain ⟨f, _, hmk⟩ := Option.bind_eq_some.mp h
  exact mkValidDT_valid hmk

/-! ## Claims about the scheduler predicate -/

/-- Claim C1: for a record with repeat `Once`, `_should_fire` at instant
`now` returns true iff `delivered` is not truthy, the `date` field is
present and nonempty, the combined `date` and `time` string parses under
`"%Y-%m-%d %H:%M"`, and `now` truncated to the minute equals the parsed
instant truncated to the minute; at every instant outside that single
calendar minute it returns false. -/
theorem once_should_fire_iff (now : PyDateTime) (hv : now.Valid) (n : Notif)
    (hrep : pyRepeat n = "Once") :
    shouldFire now n = .ok true ↔
      (delivTruthy n.delivered = false ∧
        ∃ s, n.date = some s ∧ s ≠ "" ∧
          ∃ due, strptimeYmdHM (s ++ " " ++ pyTime n) = some due ∧
            now.year = due.year ∧ now.month = due.month ∧ now.day = due.day ∧
            now.hour = due.hour ∧ now.minute = due.minute) := by
  cases hdel : delivTruthy n.delivered with
  | true => simp [shouldFire, hrep, hdel]
  | false =>
    cases hdate : n.date with
    | none => simp [shouldFire, hrep, hdel, hdate, strTruthy]
    | some s =>
      by_cases hs : s = ""
      · subst hs
        simp [shouldFire, hrep, hdel, hdate, strTruthy]
      · cases hparse : strptimeYmdHM (s ++ " " ++ pyTime n) with
        | none => simp [shouldFire, hrep, hdel, hdate, strTruthy, hs, hparse]
        | some due =>
          have hdv : due.Valid := strptime_valid hparse
          simp only [shouldFire, hrep, hdel, hdate, strTruthy, hs, hparse, if_true,
            Option.getD_some, ne_eq, not_false_eq_true, Bool.false_eq_true, if_false,
            Except.ok.injEq, decide_eq_true_eq]
          rw [if_neg (by simp [hs])]
          simp only [Except.ok.injEq, decide_eq_true_eq]
          rw [fmtDateHM_eq_iff hv hdv]
          constructor
          · intro h
            exact ⟨trivial, s, rfl, hs, due, hparse, h.1, h.2.1, h.2.2.1, h.2.2.2.1, h.2.2.2.2⟩
          · rintro ⟨-, s', hs', -, due', hdue', h1, h2, h3, h4, h5⟩
            cases hs'
            rw [hparse] at hdue'
            cases hdue'
            exact ⟨h1, h2, h3, h4, h5⟩

/-- Claim C2: once `_mark_fired` has been applied to a repeat-`Once` record,
`_should_fire` returns false at every subsequent instant (evaluation is
pure, so this holds however many times it is re-polled). -/
theorem once_marked_never_fires (n : Notif) (hrep : pyRepeat n = "Once")
    (m now' : PyDateTime) :
    shouldFire now' (markFired m n) = .ok false := by
  have hm : markFired m n = { n with delivered := some true } := by
    simp [markFired, hrep]
  rw [hm]
  have hrep' : pyRepeat { n with delivered := some true } = "Once" := hrep
  simp [shouldFire, hrep', delivTruthy]

/-- Claim C3: for a record with repeat `Daily`, `_should_fire` is true iff
the current minute's `HH:MM` string equals the stored `time` and
`last_fired_date` differs from today's date string; after `_mark_fired` at
instant `m` it is false at every instant of the same calendar day, and true
again at any later instant of a different day whose `HH:MM` matches. -/
theorem daily_should_fire (now : PyDateTime) (n : Notif) (hrep : pyRepeat n = "Daily") :
    (shouldFire now n = .ok true ↔
      (fmtHM now = pyTime n ∧ n.last_fired_date ≠ some (fmtDate now)))
    ∧ (∀ m now', fmtDate now' = fmtDate m → shouldFire now' (markFired m n) = .ok false)
    ∧ (∀ m now', now'.Valid → m.Valid →
        (now'.year, now'.month, now'.day) ≠ (m.year, m.month, m.day) →
        fmtHM now' = pyTime n → shouldFire now' (markFired m n) = .ok true) := by
  have hmark : ∀ m : PyDateTime,
      markFired m n = { n with last_fired_date := some (fmtDate m) } := by
    intro m
    simp [markFired, hrep]
  refine ⟨?_, ?_, ?_⟩
  · by_cases ht : fmtHM now = pyTime n
    · simp [shouldFire, hrep, timeMatchesNow, ht]
    · simp [shouldFire, hrep, timeMatchesNow, ht]
  · intro m now' hsame
    rw [hmark m]
    have hrep' : pyRepeat { n with last_fired_date := some (fmtDate m) } = "Daily" := hrep
    have hpt : pyTime { n with last_fired_date := some (fmtDate m) } = pyTime n := rfl
    by_cases ht : fmtHM now' = pyTime n
    · simp [shouldFire, hrep', timeMatchesNow, hpt, ht, hsame]
    · simp [shouldFire, hrep', timeMatchesNow, hpt, ht]
  · intro m now' hv' hm' hneq ht
    rw [hmark m]
    have hrep' : pyRepeat { n with last_fired_date := some (fmtDate m) } = "Daily" := hrep
    have hpt : pyTime { n with last_fired_date := some (fmtDate m) } = pyTime n := rfl
    have hne : fmtDate m ≠ fmtDate now' := by
      intro he
      have h3 := (fmtDate_eq_iff hm' hv').mp he
      exact hneq (by simp [h3.1, h3.2.1, h3.2.2])
    simp [shouldFire, hrep', timeMatchesNow, hpt, ht, hne]

/-- Claim C4: for a record with repeat `Weekly` whose `created_weekday` is
the integer `w`, `_should_fire` is true iff `now.weekday()` equals `w`, the
current minute's `HH:MM` equals the stored `time`, and `last_fired_week`
differs from the current ISO year-week string; after `_mark_fired` at
instant `m` it is false at every instant of the same ISO week, and it is
false (marked or not) on every instant whose weekday is not `w`. -/
theorem weekly_should_fire (now : PyDateTime) (n : Notif) (hrep : pyRepeat n = "Weekly")
    (w : Int) (hw : n.created_weekday = some (.int w)) :
    (shouldFire now n = .ok true ↔
      ((now.weekday : Int) = w ∧ fmtHM now = pyTime n ∧
        n.last_fired_week ≠ some (isoWeekStr now)))
    ∧ (∀ m now', isocalendarYW now' = isocalendarYW m →
        shouldFire now' (markFired m n) = .ok false)
    ∧ (∀ now'', (now''.weekday : Int) ≠ w → shouldFire now'' n = .ok false)
    ∧ (∀ m now'', (now''.weekday : Int) ≠ w → shouldFire now'' (markFired m n) = .ok false) := by
  have hmark : ∀ m : PyDateTime,
      markFired m n = { n with last_fired_week := some (isoWeekStr m) } := by
    intro m
    simp [markFired, hrep]
  refine ⟨?_, ?_, ?_, ?_⟩
  · by_cases hwd : (now.weekday : Int) = w
    · by_cases ht : fmtHM now = pyTime n
      · simp [shouldFire, hrep, hw, pyIntOf, timeMatchesNow, ht, hwd]
      · simp [shouldFire, hrep, hw, pyIntOf, timeMatchesNow, ht, hwd]
    · simp [shouldFire, hrep, hw, pyIntOf, timeMatchesNow, hwd]
  · intro m now' hsame
    have e1 : pyRepeat (markFired m n) = "Weekly" := by
      rw [hmark m]
      exact hrep
    have e2 : pyTime (markFired m n) = pyTime n := by
      rw [hmark m]
      rfl
    have e3 : (markFired m n).created_weekday = some (.int w) := by
      rw [hmark m]
      exact hw
    have e4 : (markFired m n).last_fired_week = some (isoWeekStr m) := by
      rw [hmark m]
    have hiso : isoWeekStr now' = isoWeekStr m := by
      unfold isoWeekStr
      rw [hsame]
    by_cases hwd : (now'.weekday : Int) = w
    · by_cases ht : fmtHM now' = pyTime n
      · simp [shouldFire, e1, e2, e3, e4, pyIntOf, timeMatchesNow, ht, hwd, hiso]
      · simp [shouldFire, e1, e2, e3, e4, pyIntOf, timeMatchesNow, ht, hwd]
    · simp [shouldFire, e1, e2, e3, e4, pyIntOf, timeMatchesNow, hwd]
  · intro now'' hwd
    simp [shouldFire, hrep, hw, pyIntOf, hwd]
  · intro m now'' hwd
    have e1 : pyRepeat (markFired m n) = "Weekly" := by
      rw [hmark m]
      exact hrep
    have e3 : (markFired m n).created_weekday = some (.int w) := by
      rw [hmark m]
      exact hw
    simp [shouldFire, e1, e3, pyIntOf, hwd]

/-- Claim C9 (amended): `_should_fire` raises no exception on any record
whose `repeat` (after its `"Once"` default) is not `"Weekly"`, whatever
`created_weekday` holds, nor on any record whose `created_weekday` is
absent or a value `int()` converts — an integer, or an optionally signed,
whitespace-padded ASCII digit string; missing fields default internally
(`repeat` to `"Once"`, `time` to `"00:00"`), and an unknown repeat value, a
missing or empty date, or an unparsable date/time string all yield `false`
rather than an error. -/
theorem shouldFire_no_raise_amended (now : PyDateTime) (n : Notif) :
    (pyRepeat n ≠ "Weekly" → (shouldFire now n).isOk = true)
    ∧ ((∀ v, n.created_weekday = some v → (pyIntOf v).isSome = true) →
        (shouldFire now n).isOk = true)
    ∧ (pyRepeat n ≠ "Once" → pyRepeat n ≠ "Daily" → pyRepeat n ≠ "Weekly" →
        shouldFire now n = .ok false)
    ∧ (pyRepeat n = "Once" → strTruthy n.date = false → shouldFire now n = .ok false)
    ∧ (pyRepeat n = "Once" → ∀ s, n.date = some s →
        strptimeYmdHM (s ++ " " ++ pyTime n) = none → shouldFire now n = .ok false)
    ∧ (n.rep = none → pyRepeat n = "Once")
    ∧ (n.time = none → pyTime n = "00:00") := by
  refine ⟨?_, ?_, ?_, ?_, ?_, ?_, ?_⟩
  · intro hrep
    simp only [shouldFire]
    repeat' split
    all_goals rfl
  · intro hcw
    cases hv : n.created_weekday with
    | none =>
      simp only [shouldFire, hv, Option.getD_none, pyIntOf]
      repeat' split
      all_goals rfl
    | some v =>
      obtain ⟨k, hk⟩ := Option.isSome_iff_exists.mp (hcw v hv)
      simp only [shouldFire, hv, Option.getD_some, hk]
      repeat' split
      all_goals rfl
  · intro h1 h2 h3
    simp only [shouldFire, if_neg h1, if_neg h2, if_neg h3]
  · intro h1 hdate
    simp [shouldFire, h1, hdate]
  · intro h1 s hs hparse
    by_cases hdel : delivTruthy n.delivered
    · simp [shouldFire, h1, hdel]
    · by_cases hse : s = ""
      · subst hse
        simp [shouldFire, h1, hdel, hs, strTruthy]
      · simp [shouldFire, h1, hdel, hs, strTruthy, hse, hparse]
  · intro h
    simp [pyRepeat, h]
  · intro h
    simp [pyTime, h]

/-- Claim C9 (counterexample to the claim as stated): a record dictionary
with `repeat = "Weekly"` and a non-numeric `created_weekday` makes
`_should_fire` raise (`int("x")` raises `ValueError`), so the predicate is
not exception-free for every record dictionary. -/
theorem shouldFire_raises_counterexample :
    shouldFire ⟨2025, 3, 4, 9, 30⟩
      { rep := some ("Weekly"), created_weekday := some (.str ("x")) } = .error () := rfl

/-- Claim C10: `_mark_fired` updates exactly the fire-memory field selected
by the record's repeat mode (`delivered` for Once, `last_fired_date` for
Daily, `last_fired_week` for Weekly) and leaves every other field
unchanged; an unrecognised repeat value leaves the record entirely
unchanged. -/
theorem markFired_frame (m : PyDateTime) (n : Notif) :
    (pyRepeat n = "Once" → markFired m n = { n with delivered := some true })
    ∧ (pyRepeat n = "Daily" → markFired m n = { n with last_fired_date := some (fmtDate m) })
    ∧ (pyRepeat n = "Weekly" → markFired m n = { n with last_fired_week := some (isoWeekStr m) })
    ∧ (pyRepeat n ≠ "Once" → pyRepeat n ≠ "Daily" → pyRepeat n ≠ "Weekly" →
        markFired m n = n) := by
  refine ⟨?_, ?_, ?_, ?_⟩
  · intro h
    simp [markFired, h]
  · intro h
    have h' : pyRepeat n ≠ "Once" := by
      rw [h]
      decide
    simp [markFired, h, h']
  · intro h
    have h1 : pyRepeat n ≠ "Once" := by
      rw [h]
      decide
    have h2 : pyRepeat n ≠ "Daily" := by
      rw [h]
      decide
    simp [markFired, h, h1, h2]
  · intro h1 h2 h3
    simp [markFired, h1, h2, h3]

/-! ## Claims about the polling cycle -/

theorem exceptIsTrue_iff (x : Except Unit Bool) : exceptIsTrue x = true ↔ x = .ok true := by
  cases x with
  | error e => simp [exceptIsTrue]
  | ok b => cases b <;> simp [exceptIsTrue]

theorem mem_idxFrom : ∀ (len i j : Nat), i ≤ j → j < i + len → j ∈ idxFrom i len
  | 0, _, _, h1, h2 => by omega
  | len + 1, i, j, h1, h2 => by
    by_cases he : j = i
    · simp [idxFrom, he]
    · have hm := mem_idxFrom len (i + 1) j (by omega) (by omega)
      simp [idxFrom, hm]

theorem pollGo_spec (now : PyDateTime) (mat : Nat → Option String) (ns : List Notif) :
    ∀ i : Nat, (∀ n ∈ ns, (shouldFire now n).isOk = true) →
      pollGo now mat i ns =
        (ns.map (fun n => if exceptIsTrue (shouldFire now n) then markFired now n else n),
         idxFrom i ns.length,
         dueFrom now mat i ns,
         ns.any (fun n => exceptIsTrue (shouldFire now n)),
         false) := by
  induction ns with
  | nil => intro i _; simp [pollGo, idxFrom, dueFrom]
  | cons n rest ih =>
    intro i h
    have hn : (shouldFire now n).isOk = true := h n (by simp)
    have hrest : ∀ x ∈ rest, (shouldFire now x).isOk = true := fun x hx => h x (by simp [hx])
    cases hsf : shouldFire now n with
    | error e =>
      rw [hsf] at hn
      cases hn
    | ok b =>
      cases b with
      | false =>
        simp only [pollGo, hsf]
        rw [ih (i + 1) hrest]
        simp [idxFrom, dueFrom, exceptIsTrue, hsf, List.length_cons]
      | true =>
        simp only [pollGo, hsf]
        rw [ih (i + 1) hrest]
        simp [idxFrom, dueFrom, exceptIsTrue, hsf, List.length_cons]

/-- Claim C5 (amended): when no record's evaluation raises, a poll cycle
evaluates every record of the snapshot, delivers and marks exactly the due
ones (whatever the image-materialisation oracle does — a materialisation
failure is isolated and only nulls the image path), and persists iff some
record fired.  (The unamended per-record isolation is refuted by
`poll_cycle_abort_counterexample`.) -/
theorem poll_cycle_amended (now : PyDateTime) (mat : Nat → Option String) (ns : List Notif)
    (h : ∀ n ∈ ns, (shouldFire now n).isOk = true) :
    (pollCycle now mat ns).aborted = false
    ∧ (pollCycle now mat ns).evaluated = idxFrom 0 ns.length
    ∧ (pollCycle now mat ns).delivered = dueFrom now mat 0 ns
    ∧ (pollCycle now mat ns).records =
        ns.map (fun n => if exceptIsTrue (shouldFire now n) then markFired now n else n)
    ∧ ((pollCycle now mat ns).saved = true ↔ ∃ n ∈ ns, shouldFire now n = .ok true)
    ∧ (∀ k, k < ns.length → k ∈ (pollCycle now mat ns).evaluated) := by
  have hs := pollGo_spec now mat ns 0 h
  unfold pollCycle
  rw [hs]
  refine ⟨rfl, rfl, rfl, rfl, ?_, ?_⟩
  · simp only [Bool.not_false, Bool.and_true, List.any_eq_true]
    constructor
    · rintro ⟨n, hn, ht⟩
      exact ⟨n, hn, (exceptIsTrue_iff _).mp ht⟩
    · rintro ⟨n, hn, ht⟩
      exact ⟨n, hn, (exceptIsTrue_iff _).mpr ht⟩
  · intro k hk
    exact mem_idxFrom ns.length 0 k (by omega) (by omega)

/-- Claim C5 (counterexample to the claim as stated): with two records in
the snapshot — the first a `Weekly` record whose `created_weekday` is the
non-numeric string `"x"` (an ordinary JSON value for that key, reachable by
hand-editing `notifications.json`), the second a due `Once` record — the
first record's processing raises inside the cycle's single `try`, and the
second record is never evaluated, never delivered and never marked in that
cycle, contradicting per-record isolation. -/
theorem poll_cycle_abort_counterexample :
    shouldFire ⟨2025, 3, 4, 9, 30⟩
        { rep := some ("Once"), date := some ("2025-03-04"), time := some ("09:30") } = .ok true
    ∧ pollCycle ⟨2025, 3, 4, 9, 30⟩ (fun _ => none)
        [{ rep := some ("Weekly"), created_weekday := some (.str ("x")) },
         { rep := some ("Once"), date := some ("2025-03-04"), time := some ("09:30") }] =
      { records := [{ rep := some ("Weekly"), created_weekday := some (.str ("x")) },
                    { rep := some ("Once"), date := some ("2025-03-04"), time := some ("09:30") }],
        evaluated := [0], delivered := [], fired := false, saved := false, aborted := true } :=
  ⟨rfl, rfl⟩

/-! ## Claims about the delivery dispatcher and the store -/

/-- Claim C8: every delivery call tries the mechanisms in the fixed order
sound → primary toast → secondary toast → generic library → dialog (its
invocation list is a sublist of that order, so each mechanism runs at most
once), the sound always runs first and its outcome never affects the rest
of dispatch, no further mechanism runs after the first non-sound mechanism
that succeeds, and when every earlier mechanism is unavailable or fails the
dialog is reached; all failures are swallowed (the dispatcher is total and
always returns its trace). -/
theorem deliver_dispatch (e : DeliverEnv) :
    List.Sublist (deliverTrace e) dispatchOrder
    ∧ (deliverTrace e).head? = some .sound
    ∧ (∀ b, deliverTrace { e with soundOk := b } = deliverTrace e)
    ∧ (∀ m, m ∈ deliverTrace e → m ≠ .sound → mechOk e m = true →
        (deliverTrace e).getLast? = some m)
    ∧ ((e.toasterAvail = false ∨ e.toastOk = false) →
        (e.winotifyAvail = false ∨ e.winotifyOk = false) →
        (e.plyerAvail = false ∨ e.plyerOk = false) →
        (deliverTrace e).getLast? = some .dialog) := by
  obtain ⟨a, b, c, d, f, g, p, q⟩ := e
  cases a <;> cases b <;> cases c <;> cases d <;> cases f <;> cases g <;> cases p <;> cases q <;>
    decide

/-- Claim C6: `load_notifications` returns the empty list (not an error)
when no persisted file exists; when the file exists but cannot be read, or
exists but does not parse, it surfaces a warning and still returns the
empty list; and a parsable file loads without a warning. -/
theorem load_notifications_spec :
    load_notifications .missing = ⟨.arr .nil, false⟩
    ∧ load_notifications .unreadable = ⟨.arr .nil, true⟩
    ∧ (∀ s, parseJson s = none → load_notifications (.contents s) = ⟨.arr .nil, true⟩)
    ∧ (∀ s v, parseJson s = some v → load_notifications (.contents s) = ⟨v, false⟩) := by
  refine ⟨rfl, rfl, ?_, ?_⟩
  · intro s hs
    simp [load_notifications, hs]
  · intro s v hs
    simp [load_notifications, hs]

/-! ## Lemmas: decimal rendering and its parse-back -/

theorem digitChar_mem_digitChars (n : Nat) : digitChar n ∈ digitChars := by
  rw [digitChar_mod]
  have hb : ∀ j, j < 10 → digitChar j ∈ digitChars := by decide
  exact hb (n % 10) (by omega)

theorem renderNatAux_acc : ∀ (f n : Nat) (acc : List Char),
    renderNatAux f n acc = renderNatAux f n [] ++ acc
  | 0, _, _ => by simp [renderNatAux]
  | f + 1, n, acc => by
    simp only [renderNatAux]
    split
    · simp
    · rw [renderNatAux_acc f (n / 10) (digitChar n :: acc),
        renderNatAux_acc f (n / 10) [digitChar n]]
      simp

theorem renderNatAux_eq0 : ∀ (f n : Nat), n < 10 ^ f → renderNatAux (f + 1) n [] = renderNat0 n
  | f, n, h => by
    simp only [renderNatAux]
    rw [renderNat0]
    by_cases h10 : n < 10
    · rw [if_pos (by omega), if_pos h10]
    · have hd : ¬n / 10 = 0 := by omega
      rw [if_neg hd, if_neg h10, renderNatAux_acc]
      cases f with
      | zero =>
        exfalso
        omega
      | succ f' =>
        have h2 : n / 10 < 10 ^ f' := by
          rw [pow_succ] at h
          omega
        rw [renderNatAux_eq0 f' (n / 10) h2]

theorem renderNat_eq (n : Nat) : renderNat n = renderNat0 n := by
  unfold renderNat
  exact renderNatAux_eq0 n n (Nat.lt_pow_self (by norm_num) n)

theorem renderNat0_mem (n : Nat) : ∀ c ∈ renderNat0 n, c ∈ digitChars := by
  induction n using Nat.strong_induction_on with
  | _ n ih =>
    rw [renderNat0]
    split
    · intro c hc
      simp only [List.mem_singleton] at hc
      subst hc
      exact digitChar_mem_digitChars n
    · intro c hc
      rw [List.mem_append] at hc
      rcases hc with hc | hc
      · exact ih (n / 10) (Nat.div_lt_self (by omega) (by omega)) c hc
      · simp only [List.mem_singleton] at hc
        subst hc
        exact digitChar_mem_digitChars n

theorem renderNat0_ne_nil (n : Nat) : renderNat0 n ≠ [] := by
  rw [renderNat0]
  split <;> simp

theorem digitChar_toNat_lt : ∀ k, k < 10 → (digitChar k).toNat - 48 = k := by
  decide

theorem digitChar_toNat (n : Nat) : (digitChar n).toNat - 48 = n % 10 := by
  rw [digitChar_mod]
  exact digitChar_toNat_lt (n % 10) (by omega)

theorem digitsToNat_append_one (ds : List Char) (d : Char) :
    digitsToNat (ds ++ [d]) = 10 * digitsToNat ds + (d.toNat - 48) := by
  simp [digitsToNat, List.foldl_append]

theorem digitsToNat_renderNat0 (n : Nat) : digitsToNat (renderNat0 n) = n := by
  induction n using Nat.strong_induction_on with
  | _ n ih =>
    rw [renderNat0]
    split
    · simp only [digitsToNat, List.foldl_cons, List.foldl_nil]
      have := digitChar_toNat n
      omega
    · rw [digitsToNat_append_one, ih (n / 10) (Nat.div_lt_self (by omega) (by omega))]
      have := digitChar_toNat n
      omega

theorem renderNat0_head_ne_zero : ∀ n, 1 ≤ n → ∀ c cs, renderNat0 n = c :: cs → c ≠ '0' := by
  intro n
  induction n using Nat.strong_induction_on with
  | _ n ih =>
    intro hn c cs heq
    rw [renderNat0] at heq
    split at heq
    · cases heq
      intro h0
      have h1 : digitChar n = digitChar 0 := h0
      have := digitChar_inj_mod h1
      omega
    · cases hr : renderNat0 (n / 10) with
      | nil => exact absurd hr (renderNat0_ne_nil (n / 10))
      | cons c' cs' =>
        rw [hr] at heq
        simp only [List.cons_append, List.cons.injEq] at heq
        rw [← heq.1]
        exact ih (n / 10) (Nat.div_lt_self (by omega) (by omega))
          (by omega) c' cs' hr

theorem takeDigits_all : ∀ (ds rest : List Char), (∀ c ∈ ds, c.isDigit = true) →
    headNotDigit rest → takeDigits (ds ++ rest) = (ds, rest)
  | [], rest, _, hr => by
    cases rest with
    | nil => rfl
    | cons c cs =>
      simp only [headNotDigit] at hr
      simp [takeDigits, hr]
  | d :: ds, rest, hd, hr => by
    have h1 : d.isDigit = true := hd d (by simp)
    simp only [List.cons_append, takeDigits, h1, if_pos, List.append_eq]
    rw [takeDigits_all ds rest (fun c hc => hd c (by simp [hc])) hr]

theorem mem_digitChars_isDigit : ∀ c ∈ digitChars, c.isDigit = true := by
  decide

theorem parseIntDigits_renderNat0 (n : Nat) (rest : List Char) (h : headNotDigit rest) :
    parseIntDigits (renderNat0 n ++ rest) = some (n, rest) := by
  unfold parseIntDigits
  rw [takeDigits_all _ _ (fun c hc => mem_digitChars_isDigit c (renderNat0_mem n c hc)) h]
  cases hr : renderNat0 n with
  | nil => exact absurd hr (renderNat0_ne_nil n)
  | cons d ds =>
    simp only
    by_cases hn : n = 0
    · subst hn
      have : renderNat0 0 = ['0'] := by rw [renderNat0]; rfl
      rw [this] at hr
      cases hr
      simp
    · have hd0 : d ≠ '0' := renderNat0_head_ne_zero n (by omega) d ds hr
      rw [if_neg hd0, ← hr, digitsToNat_renderNat0]

/-! ## Lemmas: string escaping round trip -/

theorem hexDigitChar_mod (n : Nat) : hexDigitChar n = hexDigitChar (n % 16) := by
  have h : n % 16 % 16 = n % 16 := by omega
  unfold hexDigitChar
  rw [h]

theorem hexVal_hexDigitChar_lt : ∀ k, k < 16 → hexVal (hexDigitChar k) = some k := by
  decide

theorem hexVal_hexDigitChar (n : Nat) : hexVal (hexDigitChar n) = some (n % 16) := by
  rw [hexDigitChar_mod]
  exact hexVal_hexDigitChar_lt (n % 16) (by omega)

theorem escapeChar_length_pos (c : Char) : 1 ≤ (escapeChar c).length := by
  unfold escapeChar
  repeat' split
  all_goals simp

theorem parseStrBody_u_escape (c : Char) (cs rest : List Char) (f' : Nat)
    (h8 : c.toNat < 32)
    (ih : parseStrBody f' (escapeList cs ++ '"' :: rest) = some (cs, rest)) :
    parseStrBody (f' + 1) ('\\' :: 'u' :: '0' :: '0' :: hexDigitChar (c.toNat / 16) ::
      hexDigitChar c.toNat :: (escapeList cs ++ '"' :: rest)) = some (c :: cs, rest) := by
  rw [parseStrBody]
  rw [if_neg (show ¬('\\' : Char) = '"' by decide), if_pos rfl]
  dsimp only
  rw [hexVal_hexDigitChar, hexVal_hexDigitChar]
  have e16 : c.toNat / 16 % 16 = c.toNat / 16 := by omega
  rw [e16]
  simp only [show hexVal '0' = some 0 from rfl]
  rw [if_neg (by omega), if_neg (by omega), ih]
  have hcode : 4096 * 0 + 256 * 0 + 16 * (c.toNat / 16) + c.toNat % 16 = c.toNat := by omega
  rw [hcode, Char.ofNat_toNat]
  rfl

theorem parseStrBody_raw (c : Char) (cs rest : List Char) (f' : Nat)
    (h1 : ¬c = '"') (h2 : ¬c = '\\') (h8 : ¬c.toNat < 32)
    (ih : parseStrBody f' (escapeList cs ++ '"' :: rest) = some (cs, rest)) :
    parseStrBody (f' + 1) (c :: (escapeList cs ++ '"' :: rest)) = some (c :: cs, rest) := by
  rw [parseStrBody.eq_def]
  dsimp only
  rw [if_neg h1, if_neg h2, if_neg h8, ih]
  rfl

theorem parseStrBody_escape : ∀ (s : List Char) (f : Nat) (rest : List Char),
    (escapeList s).length < f →
    parseStrBody f (escapeList s ++ '"' :: rest) = some (s, rest)
  | [], f, rest, h => by
    cases f with
    | zero => omega
    | succ f' =>
      simp only [escapeList, List.nil_append]
      rfl
  | c :: cs, f, rest, h => by
    cases f with
    | zero => omega
    | succ f' =>
      have hlen : (escapeList (c :: cs)).length =
          (escapeChar c).length + (escapeList cs).length := by
        simp [escapeList]
      have hcpos := escapeChar_length_pos c
      have hfuel : (escapeList cs).length < f' := by omega
      have ih := parseStrBody_escape cs f' rest hfuel
      show parseStrBody (f' + 1) ((escapeChar c ++ escapeList cs) ++ '"' :: rest) =
        some (c :: cs, rest)
      rw [List.append_assoc]
      by_cases h1 : c = '"'
      · subst h1
        rw [show escapeChar '"' = ['\\', '"'] from rfl]
        simp only [List.cons_append, List.nil_append]
        rw [show ∀ T, parseStrBody (f' + 1) ('\\' :: '"' :: T) =
            (parseStrBody f' T).map (fun p => ('"' :: p.1, p.2)) from fun T => rfl, ih]
        rfl
      · by_cases h2 : c = '\\'
        · subst h2
          rw [show escapeChar '\\' = ['\\', '\\'] from rfl]
          simp only [List.cons_append, List.nil_append]
          rw [show ∀ T, parseStrBody (f' + 1) ('\\' :: '\\' :: T) =
              (parseStrBody f' T).map (fun p => ('\\' :: p.1, p.2)) from fun T => rfl, ih]
          rfl
        · by_cases h3 : c = '\n'
          · subst h3
            rw [show escapeChar '\n' = ['\\', 'n'] from rfl]
            simp only [List.cons_append, List.nil_append]
            rw [show ∀ T, parseStrBody (f' + 1) ('\\' :: 'n' :: T) =
                (parseStrBody f' T).map (fun p => ('\n' :: p.1, p.2)) from fun T => rfl, ih]
            rfl
          · by_cases h4 : c = '\r'
            · subst h4
              rw [show escapeChar '\r' = ['\\', 'r'] from rfl]
              simp only [List.cons_append, List.nil_append]
              rw [show ∀ T, parseStrBody (f' + 1) ('\\' :: 'r' :: T) =
                  (parseStrBody f' T).map (fun p => ('\r' :: p.1, p.2)) from fun T => rfl, ih]
              rfl
            · by_cases h5 : c = '\t'
              · subst h5
                rw [show escapeChar '\t' = ['\\', 't'] from rfl]
                simp only [List.cons_append, List.nil_append]
                rw [show ∀ T, parseStrBody (f' + 1) ('\\' :: 't' :: T) =
                    (parseStrBody f' T).map (fun p => ('\t' :: p.1, p.2)) from fun T => rfl, ih]
                rfl
              · by_cases h6 : c.toNat = 8
                · have hc : c = Char.ofNat 8 := by
                    rw [← h6, Char.ofNat_toNat]
                  subst hc
                  rw [show escapeChar (Char.ofNat 8) = ['\\', 'b'] from rfl]
                  simp only [List.cons_append, List.nil_append]
                  rw [show ∀ T, parseStrBody (f' + 1) ('\\' :: 'b' :: T) =
                      (parseStrBody f' T).map (fun p => (Char.ofNat 8 :: p.1, p.2)) from
                      fun T => rfl, ih]
                  rfl
                · by_cases h7 : c.toNat = 12
                  · have hc : c = Char.ofNat 12 := by
                      rw [← h7, Char.ofNat_toNat]
                    subst hc
                    rw [show escapeChar (Char.ofNat 12) = ['\\', 'f'] from rfl]
                    simp only [List.cons_append, List.nil_append]
                    rw [show ∀ T, parseStrBody (f' + 1) ('\\' :: 'f' :: T) =
                        (parseStrBody f' T).map (fun p => (Char.ofNat 12 :: p.1, p.2)) from
                        fun T => rfl, ih]
                    rfl
                  · by_cases h8 : c.toNat < 32
                    · rw [escapeChar, if_neg h1, if_neg h2, if_neg h3, if_neg h4, if_neg h5,
                        if_neg h6, if_neg h7, if_pos h8]
                      simp only [List.cons_append, List.nil_append]
                      exact parseStrBody_u_escape c cs rest f' h8 ih
                    · rw [escapeChar, if_neg h1, if_neg h2, if_neg h3, if_neg h4, if_neg h5,
                        if_neg h6, if_neg h7, if_neg h8]
                      simp only [List.cons_append, List.nil_append]
                      exact parseStrBody_raw c cs rest f' h1 h2 h8 ih

/-! ## Lemmas: JSON round trip -/

theorem jsonHeadChars_class : ∀ c ∈ jsonHeadChars,
    isJsonWs c = false ∧ c ≠ ']' ∧ c.isDigit = false ∨ c ∈ digitChars := by
  decide

mutual
theorem sizeJ_pos : ∀ v : Json, 1 ≤ sizeJ v
  | .null => by simp [sizeJ]
  | .bool _ => by simp [sizeJ]
  | .int _ => by simp [sizeJ]
  | .str _ => by simp [sizeJ]
  | .arr a => by simp [sizeJ]
  | .obj o => by simp [sizeJ]
theorem sizeA_pos : ∀ a : JArr, 1 ≤ sizeA a
  | .nil => by simp [sizeA]
  | .cons v .nil => by simp [sizeA]
  | .cons v (.cons k tl) => by simp [sizeA]; omega
theorem sizeO_pos : ∀ o : JObj, 1 ≤ sizeO o
  | .nil => by simp [sizeO]
  | .cons _ v .nil => by simp [sizeO]
  | .cons _ v (.cons k w tl) => by simp [sizeO]; omega
end

theorem sizeO_cons_v (k : String) (v : Json) (tl : JObj) :
    sizeJ v + 1 ≤ sizeO (.cons k v tl) := by
  cases tl with
  | nil => simp [sizeO]; omega
  | cons a b c => simp [sizeO]; omega

theorem sizeO_cons_tl (k : String) (v : Json) (tl : JObj) (h : tl ≠ .nil) :
    sizeO tl + sizeJ v + 1 ≤ sizeO (.cons k v tl) := by
  cases tl with
  | nil => exact absurd rfl h
  | cons a b c => simp [sizeO]; omega

theorem renderInt_head (i : Int) : ∃ c cs, renderInt i = c :: cs ∧ c ∈ jsonHeadChars := by
  unfold renderInt
  split
  · exact ⟨'-', renderNat i.natAbs, rfl, by decide⟩
  · rw [renderNat_eq]
    cases hr : renderNat0 i.toNat with
    | nil => exact absurd hr (renderNat0_ne_nil i.toNat)
    | cons d ds =>
      refine ⟨d, ds, rfl, ?_⟩
      have hd : d ∈ digitChars := renderNat0_mem i.toNat d (by rw [hr]; simp)
      simp [jsonHeadChars, hd]

theorem renderV_head (v : Json) : ∃ c cs, renderV v = c :: cs ∧ c ∈ jsonHeadChars := by
  cases v with
  | null => exact ⟨'n', _, rfl, by decide⟩
  | bool b =>
    cases b with
    | true => exact ⟨'t', _, rfl, by decide⟩
    | false => exact ⟨'f', _, rfl, by decide⟩
  | int n =>
    obtain ⟨c, cs, hr, hc⟩ := renderInt_head n
    exact ⟨c, cs, by simp [renderV, hr], hc⟩
  | str s => exact ⟨'"', _, rfl, by decide⟩
  | arr a => exact ⟨'[', _, rfl, by decide⟩
  | obj o => exact ⟨Char.ofNat 123, _, rfl, by decide⟩

theorem parseCore_arrm_step (f : Nat) (cs : List Char) :
    parseCore (f + 1) .arrm cs =
      (match parseCore f .val cs with
       | some (.v v, r) =>
         (match r.dropWhile isJsonWs with
          | ',' :: r2 =>
            (match parseCore f .arrm r2 with
             | some (.a l, r3) => some (.a (.cons v l), r3)
             | _ => none)
          | ']' :: r2 => some (.a (.cons v .nil), r2)
          | _ => none)
       | _ => none) := rfl

theorem parseCore_val_bracket (f : Nat) (c : Char) (T : List Char) (hc : c ∈ jsonHeadChars) :
    parseCore (f + 1) .val ('[' :: c :: T) =
      (match parseCore f .arrm (c :: T) with
       | some (.a l, r2) => some (.v (.arr l), r2)
       | _ => none) := by
  fin_cases hc <;> rfl

theorem parseCore_val_brace_key (f : Nat) (T : List Char) :
    parseCore (f + 1) .val (Char.ofNat 123 :: '"' :: T) =
      (match parseCore f .objm ('"' :: T) with
       | some (.o o, r3) => some (.v (.obj o), r3)
       | _ => none) := rfl

theorem parseCore_objm_key (f : Nat) (T : List Char) :
    parseCore (f + 1) .objm ('"' :: T) =
      (match parseStrBody (T.length + 1) T with
       | some (k, r2) =>
         (match r2.dropWhile isJsonWs with
          | ':' :: r3 =>
            (match parseCore f .val r3 with
             | some (.v v, r4) =>
               (match r4.dropWhile isJsonWs with
                | ',' :: r5 =>
                  (match parseCore f .objm r5 with
                   | some (.o o, r6) => some (.o (.cons (String.mk k) v o), r6)
                   | _ => none)
                | c5 :: r5 =>
                  if c5 = rbrace then some (.o (.cons (String.mk k) v .nil), r5) else none
                | [] => none)
             | _ => none)
          | _ => none)
       | none => none) := rfl

theorem parseCore_val_digit (f : Nat) (d : Char) (T : List Char) (hd : d ∈ digitChars) :
    parseCore (f + 1) .val (d :: T) =
      (parseIntDigits (d :: T)).map (fun p => (.v (.int (p.1 : Int)), p.2)) := by
  fin_cases hd <;> rfl

theorem parse_render_fuel : ∀ f : Nat,
    (∀ (v : Json) (rest : List Char), sizeJ v ≤ f → headNotDigit rest →
      parseCore f .val (renderV v ++ rest) = some (.v v, rest))
    ∧ (∀ (a : JArr) (rest : List Char), a ≠ .nil → sizeA a ≤ f →
      parseCore f .arrm (renderA a ++ ']' :: rest) = some (.a a, rest))
    ∧ (∀ (o : JObj) (rest : List Char), o ≠ .nil → sizeO o ≤ f →
      parseCore f .objm (renderO o ++ rbrace :: rest) = some (.o o, rest)) := by
  intro f
  induction f with
  | zero =>
    refine ⟨?_, ?_, ?_⟩
    · intro v rest hs _
      have := sizeJ_pos v
      omega
    · intro a rest _ hs
      have := sizeA_pos a
      omega
    · intro o rest _ hs
      have := sizeO_pos o
      omega
  | succ f ih =>
    obtain ⟨ihV, ihA, ihO⟩ := ih
    refine ⟨?_, ?_, ?_⟩
    · intro v rest hs hrest
      cases v with
      | null => exact rfl
      | bool b => cases b <;> exact rfl
      | int n =>
        by_cases hneg : n < 0
        · have hr : renderV (.int n) ++ rest = '-' :: (renderNat0 n.natAbs ++ rest) := by
            simp [renderV, renderInt, if_pos hneg, renderNat_eq]
          rw [hr]
          rw [show ∀ T, parseCore (f + 1) .val ('-' :: T) =
              (parseIntDigits T).map (fun p => (.v (.int (-(p.1 : Int))), p.2)) from
              fun T => rfl]
          rw [parseIntDigits_renderNat0 n.natAbs rest hrest]
          have hn : -((n.natAbs : Nat) : Int) = n := by omega
          rw [Option.map_some', hn]
        · have hr : renderV (.int n) ++ rest = renderNat0 n.toNat ++ rest := by
            simp [renderV, renderInt, if_neg hneg, renderNat_eq]
          rw [hr]
          cases hd : renderNat0 n.toNat with
          | nil => exact absurd hd (renderNat0_ne_nil _)
          | cons d ds =>
            have hdm : d ∈ digitChars := renderNat0_mem _ d (by rw [hd]; simp)
            simp only [List.cons_append]
            rw [parseCore_val_digit f d (ds ++ rest) hdm]
            rw [← List.cons_append, ← hd, parseIntDigits_renderNat0 n.toNat rest hrest]
            have hn : ((n.toNat : Nat) : Int) = n := by omega
            rw [Option.map_some', hn]
      | str s =>
        rw [show renderV (.str s) ++ rest = '"' :: (escapeList s.data ++ '"' :: rest) from
            by simp [renderV]]
        rw [show ∀ T, parseCore (f + 1) .val ('"' :: T) = (parseStrBody (T.length + 1) T).map
            (fun p => (.v (.str (String.mk p.1)), p.2)) from fun T => rfl]
        rw [parseStrBody_escape s.data ((escapeList s.data ++ '"' :: rest).length + 1) rest
            (by simp [List.length_append]; omega)]
        rfl
      | arr a =>
        cases a with
        | nil => exact rfl
        | cons v tl =>
          obtain ⟨c, cs0, hcv, hcm⟩ := renderV_head v
          have hhead : ∃ X, renderA (.cons v tl) = c :: X := by
            cases tl with
            | nil => exact ⟨cs0, by simp [renderA, hcv]⟩
            | cons k tl2 =>
              exact ⟨cs0 ++ ',' :: renderA (.cons k tl2), by simp [renderA, hcv]⟩
          obtain ⟨X, hX⟩ := hhead
          have hr : renderV (.arr (.cons v tl)) ++ rest = '[' :: (c :: (X ++ ']' :: rest)) := by
            simp [renderV, hX]
          rw [hr, parseCore_val_bracket f c _ hcm]
          have hback : c :: (X ++ ']' :: rest) = renderA (.cons v tl) ++ ']' :: rest := by
            simp [hX]
          rw [hback, ihA (.cons v tl) rest (by simp) (by simp [sizeJ] at hs; omega)]
      | obj o =>
        cases o with
        | nil => exact rfl
        | cons k v tl =>
          have hhead : ∃ X, renderO (.cons k v tl) = '"' :: X := by
            cases tl with
            | nil => exact ⟨escapeList k.data ++ '"' :: ':' :: renderV v, by simp [renderO]⟩
            | cons k2 v2 tl2 =>
              exact ⟨escapeList k.data ++ '"' :: ':' ::
                (renderV v ++ ',' :: renderO (.cons k2 v2 tl2)), by simp [renderO]⟩
          obtain ⟨X, hX⟩ := hhead
          have hr : renderV (.obj (.cons k v tl)) ++ rest =
              Char.ofNat 123 :: ('"' :: (X ++ rbrace :: rest)) := by
            simp [renderV, hX, lbrace]
          rw [hr, parseCore_val_brace_key f (X ++ rbrace :: rest)]
          have hback : '"' :: (X ++ rbrace :: rest) = renderO (.cons k v tl) ++ rbrace :: rest := by
            simp [hX]
          rw [hback, ihO (.cons k v tl) rest (by simp) (by simp [sizeJ] at hs; omega)]
    · intro a rest hne hs
      cases a with
      | nil => exact absurd rfl hne
      | cons v tl =>
        rw [parseCore_arrm_step]
        cases tl with
        | nil =>
          rw [show renderA (.cons v .nil) = renderV v from rfl]
          rw [ihV v (']' :: rest) (by simp [sizeA] at hs; omega) (by rfl)]
          exact rfl
        | cons k tl2 =>
          have hin : renderA (.cons v (.cons k tl2)) ++ ']' :: rest =
              renderV v ++ (',' :: (renderA (.cons k tl2) ++ ']' :: rest)) := by
            simp [renderA]
          rw [hin, ihV v _ (by simp [sizeA] at hs; omega) (by rfl)]
          dsimp only
          rw [show List.dropWhile isJsonWs (',' :: (renderA (.cons k tl2) ++ ']' :: rest)) =
              ',' :: (renderA (.cons k tl2) ++ ']' :: rest) from rfl]
          show (match parseCore f PMode.arrm (renderA (JArr.cons k tl2) ++ ']' :: rest) with
            | some (PRes.a l, r3) => some (PRes.a (JArr.cons v l), r3)
            | _ => none) = some (PRes.a (JArr.cons v (JArr.cons k tl2)), rest)
          rw [ihA (.cons k tl2) rest (by simp) (by simp [sizeA] at hs; omega)]
    · intro o rest hne hs
      cases o with
      | nil => exact absurd rfl hne
      | cons k v tl =>
        have hro : ∃ TAIL, renderO (.cons k v tl) ++ rbrace :: rest =
            '"' :: (escapeList k.data ++ '"' :: (':' :: (renderV v ++ TAIL))) ∧
            headNotDigit TAIL ∧
            ((tl = .nil ∧ TAIL = rbrace :: rest) ∨
              (tl ≠ .nil ∧ TAIL = ',' :: (renderO tl ++ rbrace :: rest))) := by
          cases tl with
          | nil =>
            refine ⟨rbrace :: rest, by simp [renderO], by rfl, Or.inl ⟨rfl, rfl⟩⟩
          | cons k2 v2 tl2 =>
            refine ⟨',' :: (renderO (.cons k2 v2 tl2) ++ rbrace :: rest), by simp [renderO],
              by rfl, Or.inr ⟨by simp, rfl⟩⟩
        obtain ⟨TAIL, hin, hTd, hcases⟩ := hro
        rw [hin, parseCore_objm_key]
        rw [parseStrBody_escape k.data _ (':' :: (renderV v ++ TAIL))
            (by simp [List.length_append]; omega)]
        dsimp only
        rw [show List.dropWhile isJsonWs (':' :: (renderV v ++ TAIL)) =
            ':' :: (renderV v ++ TAIL) from rfl]
        show (match parseCore f PMode.val (renderV v ++ TAIL) with
          | some (PRes.v w, r4) =>
            (match List.dropWhile isJsonWs r4 with
             | ',' :: r5 =>
               (match parseCore f PMode.objm r5 with
                | some (PRes.o o, r6) => some (PRes.o (JObj.cons (String.mk k.data) w o), r6)
                | _ => none)
             | c5 :: r5 =>
               if c5 = rbrace then some (PRes.o (JObj.cons (String.mk k.data) w .nil), r5)
               else none
             | [] => none)
          | _ => none) = some (PRes.o (JObj.cons k v tl), rest)
        rw [ihV v TAIL (by have := sizeO_cons_v k v tl; omega) hTd]
        rcases hcases with ⟨htl, hT⟩ | ⟨htl, hT⟩
        · subst htl
          subst hT
          exact rfl
        · subst hT
          show (match parseCore f PMode.objm (renderO tl ++ rbrace :: rest) with
            | some (PRes.o o, r6) => some (PRes.o (JObj.cons (String.mk k.data) v o), r6)
            | _ => none) = some (PRes.o (JObj.cons k v tl), rest)
          rw [ihO tl rest htl (by have := sizeO_cons_tl k v tl htl; omega)]

theorem renderInt_length_pos (i : Int) : 1 ≤ (renderInt i).length := by
  unfold renderInt
  split
  · simp
  · rw [renderNat_eq]
    cases hr : renderNat0 i.toNat with
    | nil => exact absurd hr (renderNat0_ne_nil _)
    | cons d ds => simp

mutual
theorem lenV : ∀ v : Json, sizeJ v ≤ (renderV v).length
  | .null => by simp [sizeJ, renderV]
  | .bool b => by cases b <;> simp [sizeJ, renderV]
  | .int n => by
    have h := renderInt_length_pos n
    simp only [sizeJ, renderV]
    omega
  | .str s => by simp [sizeJ, renderV]
  | .arr a => by
    have h := lenA a
    simp only [sizeJ, renderV, List.length_cons, List.length_append]
    simp at h ⊢
    omega
  | .obj o => by
    have h := lenO o
    simp only [sizeJ, renderV, List.length_cons, List.length_append]
    simp at h ⊢
    omega
theorem lenA : ∀ a : JArr, sizeA a ≤ (renderA a).length + 1
  | .nil => by simp [sizeA, renderA]
  | .cons v .nil => by
    have h := lenV v
    simp only [sizeA, renderA]
    omega
  | .cons v (.cons k tl) => by
    have h1 := lenV v
    have h2 := lenA (.cons k tl)
    simp only [sizeA, renderA, List.length_append, List.length_cons]
    omega
theorem lenO : ∀ o : JObj, sizeO o ≤ (renderO o).length + 1
  | .nil => by simp [sizeO, renderO]
  | .cons k v .nil => by
    have h := lenV v
    simp only [sizeO, renderO, List.length_append, List.length_cons]
    omega
  | .cons k v (.cons k2 w tl) => by
    have h1 := lenV v
    have h2 := lenO (.cons k2 w tl)
    simp only [sizeO, renderO, List.length_append, List.length_cons]
    omega
end

theorem parseJson_renderJson (v : Json) : parseJson (renderJson v) = some v := by
  have hlen : sizeJ v ≤ (renderV v).length + 1 := le_trans (lenV v) (by omega)
  have h := (parse_render_fuel ((renderV v).length + 1)).1 v [] hlen (by trivial)
  rw [List.append_nil] at h
  show (match parseCore ((renderV v).length + 1) .val (renderV v) with
    | some (.v w, rest) => if rest.dropWhile isJsonWs = [] then some w else none
    | _ => none) = some v
  rw [h]
  rfl

theorem b64val_b64char : ∀ k, k < 64 → b64val (b64char k) = some k := by
  decide

theorem b64char_ne_pad : ∀ k, k < 64 → b64char k ≠ '=' := by
  decide

theorem b64decode_pad2 (v1 v2 : Nat) (h1 : v1 < 64) (h2 : v2 < 64) :
    b64decode [b64char v1, b64char v2, '=', '='] = some [v1 * 4 + v2 / 16] := by
  rw [b64decode.eq_def]
  dsimp only
  rw [b64val_b64char v1 h1, b64val_b64char v2 h2]
  rfl

theorem b64decode_pad1 (v1 v2 v3 : Nat) (h1 : v1 < 64) (h2 : v2 < 64) (h3 : v3 < 64) :
    b64decode [b64char v1, b64char v2, b64char v3, '='] =
      some [v1 * 4 + v2 / 16, v2 % 16 * 16 + v3 / 4] := by
  rw [b64decode.eq_def]
  dsimp only
  rw [b64val_b64char v1 h1, b64val_b64char v2 h2]
  dsimp only
  rw [if_neg (b64char_ne_pad v3 h3), b64val_b64char v3 h3]
  rfl

theorem b64decode_full (v1 v2 v3 v4 : Nat) (rest : List Char)
    (h1 : v1 < 64) (h2 : v2 < 64) (h3 : v3 < 64) (h4 : v4 < 64) :
    b64decode (b64char v1 :: b64char v2 :: b64char v3 :: b64char v4 :: rest) =
      (b64decode rest).map
        (fun bs => (v1 * 4 + v2 / 16) :: (v2 % 16 * 16 + v3 / 4) :: (v3 % 4 * 64 + v4) :: bs) := by
  rw [b64decode.eq_def]
  dsimp only
  rw [b64val_b64char v1 h1, b64val_b64char v2 h2]
  dsimp only
  rw [if_neg (b64char_ne_pad v3 h3), b64val_b64char v3 h3]
  dsimp only
  rw [if_neg (b64char_ne_pad v4 h4), b64val_b64char v4 h4]

theorem b64_roundtrip : ∀ (bs : List Nat), (∀ b ∈ bs, b < 256) →
    b64decode (b64encode bs) = some bs
  | [], _ => rfl
  | [a], h => by
    have ha : a < 256 := h a (by simp)
    show b64decode [b64char (a / 4), b64char (a % 4 * 16), '=', '='] = some [a]
    rw [b64decode_pad2 (a / 4) (a % 4 * 16) (by omega) (by omega)]
    have e1 : a / 4 * 4 + a % 4 * 16 / 16 = a := by omega
    rw [e1]
  | [a, b], h => by
    have ha : a < 256 := h a (by simp)
    have hb : b < 256 := h b (by simp)
    show b64decode [b64char (a / 4), b64char (a % 4 * 16 + b / 16),
      b64char (b % 16 * 4), '='] = some [a, b]
    rw [b64decode_pad1 (a / 4) (a % 4 * 16 + b / 16) (b % 16 * 4) (by omega) (by omega)
      (by omega)]
    have e1 : a / 4 * 4 + (a % 4 * 16 + b / 16) / 16 = a := by omega
    have e2 : (a % 4 * 16 + b / 16) % 16 * 16 + b % 16 * 4 / 4 = b := by omega
    rw [e1, e2]
  | a :: b :: c :: d :: rest, h => by
    have ha : a < 256 := h a (by simp)
    have hb : b < 256 := h b (by simp)
    have hc : c < 256 := h c (by simp)
    have ih := b64_roundtrip (d :: rest) (fun x hx => h x (by simp at hx ⊢; tauto))
    show b64decode (b64char (a / 4) :: b64char (a % 4 * 16 + b / 16) ::
      b64char (b % 16 * 4 + c / 64) :: b64char (c % 64) :: b64encode (d :: rest)) =
      some (a :: b :: c :: d :: rest)
    rw [b64decode_full (a / 4) (a % 4 * 16 + b / 16) (b % 16 * 4 + c / 64) (c % 64)
      (b64encode (d :: rest)) (by omega) (by omega) (by omega) (by omega), ih]
    have e1 : a / 4 * 4 + (a % 4 * 16 + b / 16) / 16 = a := by omega
    have e2 : (a % 4 * 16 + b / 16) % 16 * 16 + (b % 16 * 4 + c / 64) / 4 = b := by omega
    have e3 : (b % 16 * 4 + c / 64) % 4 * 64 + c % 64 = c := by omega
    rw [Option.map_some', e1, e2, e3]
  | [a, b, c], h => by
    have ha : a < 256 := h a (by simp)
    have hb : b < 256 := h b (by simp)
    have hc : c < 256 := h c (by simp)
    show b64decode (b64char (a / 4) :: b64char (a % 4 * 16 + b / 16) ::
      b64char (b % 16 * 4 + c / 64) :: b64char (c % 64) :: b64encode []) =
      some (a :: b :: c :: [])
    rw [b64decode_full (a / 4) (a % 4 * 16 + b / 16) (b % 16 * 4 + c / 64) (c % 64)
      (b64encode []) (by omega) (by omega) (by omega) (by omega)]
    have e1 : a / 4 * 4 + (a % 4 * 16 + b / 16) / 16 = a := by omega
    have e2 : (a % 4 * 16 + b / 16) % 16 * 16 + (b % 16 * 4 + c / 64) / 4 = b := by omega
    have e3 : (b % 16 * 4 + c / 64) % 4 * 64 + c % 64 = c := by omega
    rw [show b64decode (b64encode []) = some [] from rfl, Option.map_some', e1, e2, e3]

/-- Claim C7: for a record list whose save succeeds, writing the list with
`save_notifications` and reading it back with `load_notifications`
reproduces the list field-for-field (the loaded JSON value equals the saved
one exactly), and a base64 image payload embedded in a record is recovered
byte-for-byte by decoding. -/
theorem save_load_roundtrip :
    (∀ records : JArr,
      load_notifications (.contents (save_notifications (.arr records))) =
        ⟨.arr records, false⟩)
    ∧ (∀ bytes : List Nat, (∀ b ∈ bytes, b < 256) →
        b64decode (b64encode bytes) = some bytes) := by
  constructor
  · intro records
    show load_notifications (.contents (renderJson (.arr records))) = ⟨.arr records, false⟩
    simp [load_notifications, parseJson_renderJson]
  · exact b64_roundtrip

/-! ## Witnesses: the claim theorems applied at concrete inputs -/

theorem once_should_fire_iff_witness :
    shouldFire ⟨2025, 3, 4, 9, 30⟩
      { rep := some ("Once"), date := some ("2025-03-04"), time := some ("09:30") } = .ok true :=
  (once_should_fire_iff ⟨2025, 3, 4, 9, 30⟩ (by decide)
    { rep := some ("Once"), date := some ("2025-03-04"), time := some ("09:30") } rfl).mpr
    ⟨rfl, "2025-03-04", rfl, by decide, ⟨2025, 3, 4, 9, 30⟩, by decide, rfl, rfl, rfl, rfl, rfl⟩

theorem once_marked_never_fires_witness :
    shouldFire ⟨2025, 3, 5, 9, 30⟩
      (markFired ⟨2025, 3, 4, 9, 30⟩
        { rep := some ("Once"), date := some ("2025-03-04"), time := some ("09:30") }) =
      .ok false :=
  once_marked_never_fires
    { rep := some ("Once"), date := some ("2025-03-04"), time := some ("09:30") } rfl
    ⟨2025, 3, 4, 9, 30⟩ ⟨2025, 3, 5, 9, 30⟩

theorem daily_should_fire_witness :
    shouldFire ⟨2025, 3, 4, 9, 30⟩ { rep := some ("Daily"), time := some ("09:30") } = .ok true ∧
    shouldFire ⟨2025, 3, 4, 9, 35⟩
      (markFired ⟨2025, 3, 4, 9, 30⟩ { rep := some ("Daily"), time := some ("09:30") }) =
      .ok false ∧
    shouldFire ⟨2025, 3, 5, 9, 30⟩
      (markFired ⟨2025, 3, 4, 9, 30⟩ { rep := some ("Daily"), time := some ("09:30") }) =
      .ok true := by
  refine ⟨?_, ?_, ?_⟩
  · exact (daily_should_fire ⟨2025, 3, 4, 9, 30⟩
      { rep := some ("Daily"), time := some ("09:30") } rfl).1.mpr ⟨rfl, by decide⟩
  · exact (daily_should_fire ⟨2025, 3, 4, 9, 30⟩
      { rep := some ("Daily"), time := some ("09:30") } rfl).2.1
      ⟨2025, 3, 4, 9, 30⟩ ⟨2025, 3, 4, 9, 35⟩ rfl
  · exact (daily_should_fire ⟨2025, 3, 4, 9, 30⟩
      { rep := some ("Daily"), time := some ("09:30") } rfl).2.2
      ⟨2025, 3, 4, 9, 30⟩ ⟨2025, 3, 5, 9, 30⟩ (by decide) (by decide) (by decide) rfl

theorem weekly_should_fire_witness :
    shouldFire ⟨2025, 3, 4, 9, 30⟩
      { rep := some ("Weekly"), time := some ("09:30"), created_weekday := some (.int 1) } =
      .ok true ∧
    shouldFire ⟨2025, 3, 5, 9, 30⟩
      { rep := some ("Weekly"), time := some ("09:30"), created_weekday := some (.int 1) } =
      .ok false ∧
    shouldFire ⟨2025, 3, 7, 9, 30⟩
      (markFired ⟨2025, 3, 4, 9, 30⟩
        { rep := some ("Weekly"), time := some ("09:30"), created_weekday := some (.int 1) }) =
      .ok false := by
  refine ⟨?_, ?_, ?_⟩
  · exact (weekly_should_fire ⟨2025, 3, 4, 9, 30⟩
      { rep := some ("Weekly"), time := some ("09:30"), created_weekday := some (.int 1) }
      rfl 1 rfl).1.mpr ⟨by decide, rfl, by decide⟩
  · exact (weekly_should_fire ⟨2025, 3, 4, 9, 30⟩
      { rep := some ("Weekly"), time := some ("09:30"), created_weekday := some (.int 1) }
      rfl 1 rfl).2.2.1 ⟨2025, 3, 5, 9, 30⟩ (by decide)
  · exact (weekly_should_fire ⟨2025, 3, 4, 9, 30⟩
      { rep := some ("Weekly"), time := some ("09:30"), created_weekday := some (.int 1) }
      rfl 1 rfl).2.1 ⟨2025, 3, 4, 9, 30⟩ ⟨2025, 3, 7, 9, 30⟩ (by decide)

theorem poll_cycle_amended_witness :
    (pollCycle ⟨2025, 3, 4, 9, 30⟩ (fun _ => none)
      [{ rep := some ("Once"), date := some ("2025-03-04"), time := some ("09:30") }]).aborted =
      false :=
  (poll_cycle_amended ⟨2025, 3, 4, 9, 30⟩ (fun _ => none)
    [{ rep := some ("Once"), date := some ("2025-03-04"), time := some ("09:30") }]
    (by
      intro n hn
      rw [List.mem_singleton] at hn
      subst hn
      rfl)).1

theorem load_notifications_spec_witness :
    load_notifications (.contents ("\x7b")) = ⟨.arr .nil, true⟩ :=
  load_notifications_spec.2.2.1 ("\x7b") rfl

theorem save_load_roundtrip_witness :
    b64decode (b64encode [0, 1, 2, 255, 16]) = some [0, 1, 2, 255, 16] ∧
    load_notifications (.contents (save_notifications (.arr (.cons .null .nil)))) =
      ⟨.arr (.cons .null .nil), false⟩ :=
  ⟨save_load_roundtrip.2 [0, 1, 2, 255, 16] (by decide),
    save_load_roundtrip.1 (.cons .null .nil)⟩

theorem deliver_dispatch_witness :
    List.Sublist (deliverTrace ⟨true, true, true, true, false, false, true, true⟩)
      dispatchOrder ∧
    (deliverTrace ⟨true, true, true, true, false, false, true, true⟩).getLast? =
      some .plyer :=
  ⟨(deliver_dispatch ⟨true, true, true, true, false, false, true, true⟩).1,
    (deliver_dispatch ⟨true, true, true, true, false, false, true, true⟩).2.2.2.1 .plyer
      (by decide) (by decide) (by decide)⟩

theorem shouldFire_no_raise_amended_witness :
    (shouldFire ⟨2025, 3, 4, 9, 30⟩
      { rep := some ("Daily"), created_weekday := some (.str ("x")) }).isOk = true ∧
    (shouldFire ⟨2025, 3, 4, 9, 30⟩
      { rep := some ("Weekly"), created_weekday := some (.str (" +3 ")) }).isOk = true :=
  ⟨(shouldFire_no_raise_amended ⟨2025, 3, 4, 9, 30⟩
      { rep := some ("Daily"), created_weekday := some (.str ("x")) }).1 (by decide),
    (shouldFire_no_raise_amended ⟨2025, 3, 4, 9, 30⟩
      { rep := some ("Weekly"), created_weekday := some (.str (" +3 ")) }).2.1
      (by
        intro v hv
        cases Option.some.inj hv
        decide)⟩

theorem markFired_frame_witness :
    markFired ⟨2025, 3, 4, 9, 30⟩ { rep := some ("Daily"), time := some ("09:30") } =
      { rep := some ("Daily"), time := some ("09:30"),
        last_fired_date := some ("2025-03-04") } := by
  have h := (markFired_frame ⟨2025, 3, 4, 9, 30⟩
    { rep := some ("Daily"), time := some ("09:30") }).2.1 rfl
  rw [h]
  rfl
